import Mathlib

/-!
Verification development for the Pulumi provider registry
(`pkg/resource/deploy/providers/registry.go`).

The Go code is shallowly embedded as executable Lean definitions.  External
collaborators (the plugin host, the workspace, the semver library, the
delegated plugin handles) are threaded through the definitions as explicit
outcome parameters, exactly mirroring the call sites in the source.  A Go
`plugin.Provider` interface value is modelled as `Option P` (`none` is the
nil interface value), and a Go map read that can miss is modelled with a
further `Option` layer, so `providers : Reference → Option (Option P)`.
`contract.Failf` / `contract.Requiref` / `contract.Assertf` abort the
process; they are modelled by the `Outcome.fatal` constructor, carrying the
assertion message, with the state as it was at the abort point.
-/

/-- Resource URNs. Only their identity matters to the registry map, so they
are modelled as strings. -/
abbrev URN := String

/-- Resource IDs (strings in the source: `resource.ID`). -/
abbrev ID := String

/-- Package tokens (`tokens.Package`). -/
abbrev Package := String

/-- Semantic versions.  The registry only passes versions through to the
host and workspace, so the representation is opaque here. -/
abbrev SemVer := String

/-- The sentinel ID used before a provider has been assigned a real ID
(`UnknownID` in the providers package; the spec fixes it to "unknown"). -/
def UnknownID : ID := "unknown"

/-- Modelled from the spec: a provider reference is a `(URN, ID)` pair with
equality by exact match (the defining file, reference.go, is not part of
the sources; spec section 3.A describes the value). -/
structure Reference where
  urn : URN
  id : ID
  deriving DecidableEq

/-- A fragment of `resource.PropertyValue` sufficient for the registry: the
registry only ever inspects whether a value is a string (for "version" and
"pluginDownloadURL") and compares maps for deep equality. -/
inductive PropertyValue where
  | str (s : String)
  | boolV (b : Bool)
  | numV (n : Int)
  deriving DecidableEq

/-- Property maps (`resource.PropertyMap`): finite maps from property keys
to values, modelled as association lists with unique keys. -/
abbrev PropertyMap := List (String × PropertyValue)

/-- Deep equality of property maps (`olds.DeepEquals(news)` in the source):
equality as finite maps. -/
def deepEquals (a b : PropertyMap) : Bool :=
  a.all (fun kv => b.lookup kv.1 == some kv.2) &&
  b.all (fun kv => a.lookup kv.1 == some kv.2)

/-- A `plugin.CheckFailure`. -/
structure CheckFailure where
  property : String
  reason : String
  deriving DecidableEq

/-- The `plugin.DiffChanges` enumeration. -/
inductive DiffChanges where
  | DiffNone
  | DiffSome
  | DiffUnknown
  deriving DecidableEq

/-- The fields of `plugin.DiffResult` consulted by the registry. -/
structure DiffResult where
  changes : DiffChanges
  replaceKeys : List String
  deleteBeforeReplace : Bool
  deriving DecidableEq

/-- Modelled from the spec: `DiffResult.Replace()` (defined in the sdk
plugin package, not in the sources) is "true over `replaces` /
`deleteBeforeReplace`" (spec section 4.E). -/
def DiffResult.replace (d : DiffResult) : Bool :=
  !d.replaceKeys.isEmpty || d.deleteBeforeReplace

/-- Errors classified as the host classifies them: `workspace.MissingError`
versus anything else (`errors.As(err, &me)` in `loadProvider`). -/
inductive HostErr where
  | missing
  | other (e : String)
  deriving DecidableEq

/-- Go error values that the registry produces or propagates. -/
inductive GoErr where
  | hostErr (he : HostErr)
  | latestVersionErr (name : String) (cause : String)
  | installProviderErr (name : String) (version : Option SemVer) (url : String) (cause : String)
  | msg (s : String)
  deriving DecidableEq

/-- The `resource.Status` values returned by the registry. -/
inductive RStatus where
  | statusOK
  | statusUnknown
  deriving DecidableEq

/-- Result of running a registry method: either a fatal contract violation
(`contract.Failf` and friends abort the process) or an ordinary return. -/
inductive Outcome (α : Type _) where
  | fatal (msg : String)
  | ok (a : α)

/-- Whether an outcome is a fatal contract violation. -/
def Outcome.isFatal : Outcome α → Bool
  | .fatal _ => true
  | .ok _ => false

/-- The registry state: the `providers` map (`Reference → plugin.Provider`,
where a present entry may hold the nil interface value), the `aliases` map
and the `isPreview` flag.  `P` is the type of live (non-nil) provider
handles. -/
structure Registry (P : Type) where
  providers : Reference → Option (Option P)
  aliases : URN → Option URN
  isPreview : Bool

/-- `Registry.GetProvider`: a read of the `providers` map.  `some v` means
the Go `(v, true)` return; `none` means `(nil, false)`. -/
def Registry.getProvider (r : Registry P) (ref : Reference) : Option (Option P) :=
  r.providers ref

/-- `Registry.setProvider`: writes `providers[ref] = p` and, when
`aliases[ref.URN()]` is set to some old URN, also writes the same handle
under the alias reference. -/
def Registry.setProvider (r : Registry P) (ref : Reference) (p : Option P) : Registry P :=
  let m1 : Reference → Option (Option P) :=
    fun r' => if r' = ref then some p else r.providers r'
  match r.aliases ref.urn with
  | some aliasU =>
      { r with providers := fun r' => if r' = ⟨aliasU, ref.id⟩ then some p else m1 r' }
  | none => { r with providers := m1 }

/-- `Registry.deleteProvider`: removes `providers[ref]`, returning the
removed value; returns `none` (Go `(nil, false)`) if the entry is absent. -/
def Registry.deleteProvider (r : Registry P) (ref : Reference) :
    Option (Option P) × Registry P :=
  match r.providers ref with
  | none => (none, r)
  | some p =>
      (some p, { r with providers := fun r' => if r' = ref then none else r.providers r' })

/-- `Registry.RegisterAlias`: records `aliases[providerURN] = alias` unless
the two URNs are equal. -/
def Registry.registerAlias (r : Registry P) (providerURN aliasU : URN) : Registry P :=
  if providerURN ≠ aliasU then
    { r with aliases := fun u => if u = providerURN then some aliasU else r.aliases u }
  else r

/-- `Registry.Same`: if `aliases[ref.URN()]` names an old URN, copies the
entry registered under the alias reference into `ref`.  A Go map read of a
missing key yields the zero value (the nil interface), so a missing alias
entry stores `none` under `ref`. -/
def Registry.same (r : Registry P) (ref : Reference) : Registry P :=
  match r.aliases ref.urn with
  | none => r
  | some aliasU =>
      { r with providers :=
          fun r' => if r' = ref then some ((r.providers ⟨aliasU, ref.id⟩).getD none)
                    else r.providers r' }

/-- The calls `loadProvider` makes on its injected collaborators, in
order: `host.Provider`, `PluginSpec.GetLatestVersion`,
`workspace.DownloadToFile`, `PluginSpec.Install`. -/
inductive LoadCall where
  | hostProviderCall
  | getLatestCall
  | downloadCall
  | installCall
  deriving DecidableEq

/-- Outcomes of the external calls `loadProvider` may make, threaded in as
an environment.  `provider1` / `provider2` are the results of the first and
second `host.Provider` call; a successful result may still be the nil
interface value. -/
structure LoadEnv (P : Type) where
  provider1 : Except HostErr (Option P)
  getLatest : Except String SemVer
  download : Except String String
  install : Option String
  provider2 : Except HostErr (Option P)

/-- The result of `loadProvider`: the Go `(plugin.Provider, error)` pair
plus the log of external calls performed. -/
structure LoadOut (P : Type) where
  ret : Except GoErr (Option P)
  calls : List LoadCall

/-- `loadProvider` from registry.go: short-circuit to the builtin provider
by package name; otherwise ask the host; on a `workspace.MissingError`
resolve the version if absent, download and install the plugin (wrapping
failures in `InstallProviderError`), and ask the host a second time; any
other host error is returned unchanged. -/
def loadProvider (pkg : Package) (version : Option SemVer) (downloadURL : String)
    (builtins : Option (Package × P)) (env : LoadEnv P) : LoadOut P :=
  match builtins with
  | some (bpkg, bp) =>
      if pkg = bpkg then { ret := .ok (some bp), calls := [] }
      else loadProviderFromHost pkg version downloadURL env
  | none => loadProviderFromHost pkg version downloadURL env
where
  /-- The part of `loadProvider` after the builtin short-circuit. -/
  loadProviderFromHost (pkg : Package) (version : Option SemVer) (downloadURL : String)
      (env : LoadEnv P) : LoadOut P :=
    match env.provider1 with
    | .ok provider => { ret := .ok provider, calls := [.hostProviderCall] }
    | .error he =>
      match he with
      | .other e => { ret := .error (.hostErr (.other e)), calls := [.hostProviderCall] }
      | .missing =>
        let (verRes, calls1) :=
          match version with
          | some v => (Except.ok v, [LoadCall.hostProviderCall])
          | none =>
            match env.getLatest with
            | .ok v => (Except.ok v, [LoadCall.hostProviderCall, LoadCall.getLatestCall])
            | .error e =>
                (Except.error (GoErr.latestVersionErr pkg e),
                 [LoadCall.hostProviderCall, LoadCall.getLatestCall])
        match verRes with
        | .error e => { ret := .error e, calls := calls1 }
        | .ok _ =>
          match env.download with
          | .error e =>
              { ret := .error (.installProviderErr pkg version downloadURL e),
                calls := calls1 ++ [.downloadCall] }
          | .ok _ =>
            match env.install with
            | some e =>
                { ret := .error (.installProviderErr pkg version downloadURL e),
                  calls := calls1 ++ [.downloadCall, .installCall] }
            | none =>
              match env.provider2 with
              | .ok provider =>
                  { ret := .ok provider,
                    calls := calls1 ++ [.downloadCall, .installCall, .hostProviderCall] }
              | .error he2 =>
                  { ret := .error (.hostErr he2),
                    calls := calls1 ++ [.downloadCall, .installCall, .hostProviderCall] }

/-- `GetProviderVersion`: fetches and parses the "version" property.  The
tolerant semver parser lives in the blang/semver dependency and is threaded
in as `parseTolerant`. -/
def GetProviderVersion (parseTolerant : String → Option SemVer)
    (inputs : PropertyMap) : Except String (Option SemVer) :=
  match inputs.lookup "version" with
  | none => .ok none
  | some v =>
    match v with
    | .str s =>
      match parseTolerant s with
      | some sv => .ok (some sv)
      | none => .error "could not parse provider version"
    | _ => .error "'version' must be a string"

/-- `GetProviderDownloadURL`: fetches the "pluginDownloadURL" property,
returning "" when absent. -/
def GetProviderDownloadURL (inputs : PropertyMap) : Except String String :=
  match inputs.lookup "pluginDownloadURL" with
  | none => .ok ""
  | some v =>
    match v with
    | .str s => .ok s
    | _ => .error "'pluginDownloadURL' must be a string"

/-- The outcome of the `provider.CheckConfig` delegation inside
`Registry.Check`: the Go `(inputs, failures, err)` triple. -/
structure CheckConfigRes where
  inputs : Option PropertyMap
  failures : List CheckFailure
  err : Option GoErr

/-- The result of `Registry.Check`: the Go return triple, the registry
state afterwards, the handles passed to `host.CloseProvider` (in order) and
whether the plugin loader was reached. -/
structure CheckOut (P : Type) where
  inputs : Option PropertyMap
  failures : List CheckFailure
  err : Option GoErr
  st : Registry P
  closes : List (Option P)
  loaderCalled : Bool

/-- `Registry.Check` from registry.go.  `isProviderType` and `pkgOf`
(`GetProviderPackage`) live in reference.go, which is not among the
sources; they are threaded in as parameters (spec section 6 describes them:
the URN type token grammar `pulumi:providers:<package>`). -/
def Registry.check (isProviderType : URN → Bool) (parseTolerant : String → Option SemVer)
    (builtins : Option (Package × P)) (pkgOf : URN → Package)
    (st : Registry P) (urn : URN) (olds news : PropertyMap)
    (loadEnv : LoadEnv P) (cc : CheckConfigRes) : Outcome (CheckOut P) :=
  if isProviderType urn then
    match GetProviderVersion parseTolerant news with
    | .error e =>
        .ok { inputs := none, failures := [⟨"version", e⟩], err := none,
              st := st, closes := [], loaderCalled := false }
    | .ok version =>
      match GetProviderDownloadURL news with
      | .error e =>
          .ok { inputs := none, failures := [⟨"pluginDownloadURL", e⟩], err := none,
                st := st, closes := [], loaderCalled := false }
      | .ok downloadURL =>
        match (loadProvider (pkgOf urn) version downloadURL builtins loadEnv).ret with
        | .error e =>
            .ok { inputs := none, failures := [], err := some e,
                  st := st, closes := [], loaderCalled := true }
        | .ok none =>
            .ok { inputs := none, failures := [], err := some (.msg "could not find plugin"),
                  st := st, closes := [], loaderCalled := true }
        | .ok (some provider) =>
          if cc.failures.length ≠ 0 ∨ cc.err ≠ none then
            .ok { inputs := none, failures := cc.failures, err := cc.err,
                  st := st, closes := [some provider], loaderCalled := true }
          else
            .ok { inputs := cc.inputs, failures := [], err := none,
                  st := st.setProvider ⟨urn, UnknownID⟩ (some provider), closes := [],
                  loaderCalled := true }
  else .fatal "urn must be a provider type"

/-- The result of `Registry.Diff`: the Go `(DiffResult, error)` pair, the
state afterwards and the handles closed. -/
structure DiffOut (P : Type) where
  res : DiffResult
  err : Option GoErr
  st : Registry P
  closes : List (Option P)

/-- `Registry.Diff` from registry.go.  `dc` / `dcErr` are the outcome of the
single `provider.DiffConfig` delegation.  The `(urn, UnknownID)` lookup
decides between the normal path (normalize `DiffUnknown`, close on
replacement) and the delete-before-replace fallback path (use the
`(urn, id)` handle, return the raw diff, never close). -/
def Registry.diff (st : Registry P) (urn : URN) (id : ID) (olds news : PropertyMap)
    (dc : DiffResult) (dcErr : Option GoErr) : Outcome (DiffOut P) :=
  if id = "" then .fatal "id must not be empty"
  else
    match st.getProvider ⟨urn, UnknownID⟩ with
    | none =>
      match st.getProvider ⟨urn, id⟩ with
      | none => .fatal "Provider must have been registered by NewRegistry for DBR Diff"
      | some _ =>
        match dcErr with
        | some e =>
            .ok { res := ⟨.DiffUnknown, [], false⟩, err := some e, st := st, closes := [] }
        | none => .ok { res := dc, err := none, st := st, closes := [] }
    | some provider =>
      match dcErr with
      | some e =>
          .ok { res := ⟨.DiffUnknown, [], false⟩, err := some e, st := st, closes := [] }
      | none =>
        let d : DiffResult :=
          if dc.changes = .DiffUnknown then
            { dc with changes := if deepEquals olds news then .DiffNone else .DiffSome }
          else dc
        .ok { res := d, err := none, st := st,
              closes := if d.replace then [provider] else [] }

/-- The result of `Registry.Create`: the Go return tuple, the state
afterwards and the handles closed. -/
structure CreateOut (P : Type) where
  id : ID
  outs : Option PropertyMap
  status : RStatus
  err : Option GoErr
  st : Registry P
  closes : List (Option P)

/-- `Registry.Create` from registry.go.  `cfgErr` is the outcome of the
`provider.Configure(news)` delegation, `uuidRes` the outcome of UUID
generation.  During preview no ID is generated and the empty ID is used. -/
def Registry.create (st : Registry P) (urn : URN) (news : PropertyMap)
    (cfgErr : Option GoErr) (uuidRes : Except GoErr ID) (preview : Bool) :
    Outcome (CreateOut P) :=
  match st.getProvider ⟨urn, UnknownID⟩ with
  | none => .fatal "Check must be called before Create"
  | some provider =>
    match cfgErr with
    | some e =>
        .ok { id := "", outs := none, status := .statusOK, err := some e,
              st := st, closes := [] }
    | none =>
      if preview then
        .ok { id := "", outs := some news, status := .statusOK, err := none,
              st := st.setProvider ⟨urn, ""⟩ provider, closes := [] }
      else
        match uuidRes with
        | .error e =>
            .ok { id := "", outs := none, status := .statusOK, err := some e,
                  st := st, closes := [] }
        | .ok id =>
          if id = UnknownID then .fatal "resource ID must not be unknown"
          else
            .ok { id := id, outs := some news, status := .statusOK, err := none,
                  st := st.setProvider ⟨urn, id⟩ provider, closes := [] }

/-- The result of `Registry.Delete`. -/
structure DeleteOut (P : Type) where
  status : RStatus
  st : Registry P
  closes : List (Option P)

/-- `Registry.Delete` from registry.go: fatal during preview; removes the
`(urn, id)` entry (which must exist) and closes the removed handle. -/
def Registry.delete (st : Registry P) (urn : URN) (id : ID) : Outcome (DeleteOut P) :=
  if st.isPreview then .fatal "Delete must not be called during preview"
  else
    match st.deleteProvider ⟨urn, id⟩ with
    | (some provider, st') =>
        .ok { status := .statusOK, st := st', closes := [provider] }
    | (none, _) => .fatal "could not find provider to delete"

/-- `Registry.GetSchema`: `contract.Failf` — a fatal contract violation
(the return after it is dead code). -/
def Registry.getSchemaR (_r : Registry P) (_version : Int) :
    Outcome (Option String × Option GoErr) :=
  .fatal "GetSchema must not be called on the provider registry"

/-- `Registry.GetMapping`: `contract.Failf`. -/
def Registry.getMappingR (_r : Registry P) (_key : String) :
    Outcome (Option String × String × Option GoErr) :=
  .fatal "GetMapping must not be called on the provider registry"

/-- `Registry.CheckConfig` (on the registry itself): `contract.Failf`. -/
def Registry.checkConfigR (_r : Registry P) (_urn : URN) (_olds _news : PropertyMap)
    (_allowUnknowns : Bool) :
    Outcome (Option PropertyMap × List CheckFailure × Option GoErr) :=
  .fatal "CheckConfig must not be called on the provider registry"

/-- `Registry.DiffConfig` (on the registry itself): `contract.Failf`. -/
def Registry.diffConfigR (_r : Registry P) (_urn : URN) (_olds _news : PropertyMap)
    (_allowUnknowns : Bool) (_ignoreChanges : List String) :
    Outcome (DiffResult × Option GoErr) :=
  .fatal "DiffConfig must not be called on the provider registry"

/-- `Registry.Configure`: `contract.Failf`. -/
def Registry.configureR (_r : Registry P) (_props : PropertyMap) : Outcome (Option GoErr) :=
  .fatal "Configure must not be called on the provider registry"

/-- `Registry.Invoke`: `contract.Failf`. -/
def Registry.invokeR (_r : Registry P) (_tok : String) (_args : PropertyMap) :
    Outcome (Option PropertyMap × List CheckFailure × Option GoErr) :=
  .fatal "Invoke must not be called on the provider registry"

/-- `Registry.Call`: `contract.Failf`. -/
def Registry.callR (_r : Registry P) (_tok : String) (_args : PropertyMap) :
    Outcome (Option GoErr) :=
  .fatal "Call must not be called on the provider registry"

/-- `Registry.Construct`: contrary to the other refused methods there is no
`contract.Failf` here — the source returns an ordinary error value. -/
def Registry.constructR (_r : Registry P) (_typ : String) (_name : String) :
    Outcome (Option GoErr) :=
  .ok (some (.msg "provider resources may not be constructed"))

/-- `Registry.GetPluginInfo`: also no `contract.Failf` — the source returns
an ordinary error value. -/
def Registry.getPluginInfoR (_r : Registry P) : Outcome (Option GoErr) :=
  .ok (some (.msg "the provider registry does not report plugin info"))

/-!
Trace semantics for the single-close claim.  A trace replays a sequence of
registry operations on one registry, with the environment outcomes (which
package a URN belongs to, whether CheckConfig fails, whether DiffConfig
reports a replacement, which UUID is drawn) chosen by the trace itself.
`host.Provider` spawns a plugin process per call, so it is modelled as
returning a distinct fresh handle on every call (`CHandle.fresh n`, where
`n` counts the loads so far); the builtin provider, which `loadProvider`
returns by short-circuit without consulting the host, is the single value
`CHandle.builtin`.  Legality of a trace follows the spec's per-URN state
machine (section 4.E): Check from the start state or after a closing Diff,
Diff after a successful Check (or the delete-before-replace fallback on a
provider seeded from the prior state), Create after a successful Check with
a fresh UUID, Delete of a previously created or seeded `(urn, id)`.
-/

/-- Concrete provider handles for the trace semantics. -/
inductive CHandle where
  | builtin
  | fresh (n : Nat)
  deriving DecidableEq

/-- The static environment of a trace: which package each provider URN
names, and the package of the builtin provider, if any. -/
structure TraceEnv where
  pkgOf : URN → Package
  builtinPkg : Option Package

/-- The builtins argument handed to the registry operations. -/
def TraceEnv.builtins (env : TraceEnv) : Option (Package × CHandle) :=
  env.builtinPkg.map (fun bp => (bp, CHandle.builtin))

/-- Whether a Check on `u` is served by the builtin short-circuit. -/
def TraceEnv.isBuiltinU (env : TraceEnv) (u : URN) : Bool :=
  match env.builtinPkg with
  | some bp => decide (env.pkgOf u = bp)
  | none => false

/-- The handle a Check on `u` loads when `n` fresh handles exist already. -/
def loadHandle (env : TraceEnv) (n : Nat) (u : URN) : CHandle :=
  if env.isBuiltinU u then .builtin else .fresh n

/-- The load counter after a Check on `u`. -/
def nextCtr (env : TraceEnv) (n : Nat) (u : URN) : Nat :=
  if env.isBuiltinU u then n else n + 1

/-- Per-URN protocol state of the current generation of a provider. -/
inductive NSt where
  | initS
  | loadedS
  | createdS (i : ID)
  | closedS
  deriving DecidableEq

/-- Per-URN protocol state: the surviving prior-state ID, if any, plus the
state of the current generation. -/
structure GenSt where
  old : Option ID
  nw : NSt
  deriving DecidableEq

/-- A machine state: the registry, the number of fresh handles loaded so
far, the log of `host.CloseProvider` arguments, and the per-URN protocol
states. -/
structure MState where
  reg : Registry CHandle
  ctr : Nat
  closes : List (Option CHandle)
  pst : URN → GenSt

/-- Trace operations, with environment nondeterminism resolved in the
operation itself. -/
inductive TOp where
  | checkOk (u : URN)
  | checkFail (u : URN)
  | diffOp (u : URN) (i : ID) (replace : Bool)
  | createOk (u : URN) (i : ID)
  | deleteOp (u : URN) (i : ID)

/-- The load environment of a Check step: the host returns the next fresh
handle; the download path is never reached on this environment. -/
def freshLoadEnv (n : Nat) : LoadEnv CHandle :=
  { provider1 := .ok (some (.fresh n)), getLatest := .error "", download := .error "",
    install := none, provider2 := .error (.other "") }

/-- A succeeding CheckConfig outcome. -/
def ccOkRes : CheckConfigRes :=
  { inputs := some [], failures := [], err := none }

/-- A failing CheckConfig outcome. -/
def ccFailRes : CheckConfigRes :=
  { inputs := none, failures := [{ property := "cfg", reason := "rejected" }], err := none }

/-- Legality of one operation, per the spec's per-URN state machine. -/
def legalStep (ms : MState) : TOp → Bool
  | .checkOk u => (ms.pst u).nw == .initS || (ms.pst u).nw == .closedS
  | .checkFail u => (ms.pst u).nw == .initS || (ms.pst u).nw == .closedS
  | .diffOp u i _ =>
      (i != "") &&
      ((ms.pst u).nw == .loadedS ||
        ((ms.pst u).nw == .initS && (ms.pst u).old == some i))
  | .createOk u i =>
      ((ms.pst u).nw == .loadedS) && (i != "") && (i != UnknownID) &&
      (ms.reg.providers ⟨u, i⟩).isNone
  | .deleteOp u i =>
      (i != "") && (i != UnknownID) &&
      ((ms.pst u).old == some i || (ms.pst u).nw == .createdS i)

/-- One step of the trace semantics: run the corresponding registry
operation and accumulate its closes.  A fatal outcome aborts the process,
leaving the state as it was. -/
def stepM (env : TraceEnv) (ms : MState) : TOp → MState
  | .checkOk u =>
    match Registry.check (fun _ => true) (fun _ => none) env.builtins env.pkgOf
        ms.reg u [] [] (freshLoadEnv ms.ctr) ccOkRes with
    | .fatal _ => ms
    | .ok out =>
        { reg := out.st, ctr := nextCtr env ms.ctr u,
          closes := ms.closes ++ out.closes,
          pst := fun v => if v = u then { old := (ms.pst v).old, nw := .loadedS }
                          else ms.pst v }
  | .checkFail u =>
    match Registry.check (fun _ => true) (fun _ => none) env.builtins env.pkgOf
        ms.reg u [] [] (freshLoadEnv ms.ctr) ccFailRes with
    | .fatal _ => ms
    | .ok out =>
        { reg := out.st, ctr := nextCtr env ms.ctr u,
          closes := ms.closes ++ out.closes, pst := ms.pst }
  | .diffOp u i rep =>
    match Registry.diff ms.reg u i [] []
        { changes := .DiffNone, replaceKeys := if rep then ["k"] else [],
          deleteBeforeReplace := false } none with
    | .fatal _ => ms
    | .ok out =>
        { reg := out.st, ctr := ms.ctr, closes := ms.closes ++ out.closes,
          pst := fun v => if v = u then
              { old := (ms.pst v).old,
                nw := if rep && ((ms.pst v).nw == .loadedS) then .closedS
                      else (ms.pst v).nw }
            else ms.pst v }
  | .createOk u i =>
    match Registry.create ms.reg u [] none (.ok i) false with
    | .fatal _ => ms
    | .ok out =>
        { reg := out.st, ctr := ms.ctr, closes := ms.closes ++ out.closes,
          pst := fun v => if v = u then { old := (ms.pst v).old, nw := .createdS i }
                          else ms.pst v }
  | .deleteOp u i =>
    match Registry.delete ms.reg u i with
    | .fatal _ => ms
    | .ok out =>
        { reg := out.st, ctr := ms.ctr, closes := ms.closes ++ out.closes,
          pst := fun v => if v = u then
              (if (ms.pst v).old == some i then { old := none, nw := (ms.pst v).nw }
               else { old := (ms.pst v).old, nw := .closedS })
            else ms.pst v }

/-- Run a whole trace. -/
def runM (env : TraceEnv) (ms : MState) : List TOp → MState
  | [] => ms
  | op :: ops => runM env (stepM env ms op) ops

/-- Whether a trace is legal from a given state. -/
def legalTraceFrom (env : TraceEnv) (ms : MState) : List TOp → Bool
  | [] => true
  | op :: ops => legalStep ms op && legalTraceFrom env (stepM env ms op) ops

/-- The providers map seeded by `NewRegistry` from the prior state: the
k-th prior resource is loaded as the k-th fresh handle and registered under
its `(urn, id)` reference. -/
def seedProviders : List (URN × ID) → Nat → Reference → Option (Option CHandle)
  | [], _, _ => none
  | (u, i) :: rest, k, r =>
      if r = ⟨u, i⟩ then some (some (.fresh k)) else seedProviders rest (k + 1) r

/-- The machine state produced by `NewRegistry` on a prior state (no
aliases registered yet, not a preview, no closes yet). -/
def initM (prev : List (URN × ID)) : MState :=
  { reg := { providers := seedProviders prev 0, aliases := fun _ => none, isPreview := false },
    ctr := prev.length,
    closes := [],
    pst := fun u => { old := prev.lookup u, nw := .initS } }

/-- Number of times a handle occurs in a close log. -/
def closeCount (x : Option CHandle) : List (Option CHandle) → Nat
  | [] => 0
  | y :: ys => (if y = x then 1 else 0) + closeCount x ys

/-- A handle that, if fresh, has never been closed in the given log. -/
def FreshLive (cl : List (Option CHandle)) (h : CHandle) : Prop :=
  ∀ n, h = .fresh n → closeCount (some (.fresh n)) cl = 0

/-- The inductive invariant of the trace semantics. -/
structure MInv (ms : MState) : Prop where
  noAliases : ∀ u, ms.reg.aliases u = none
  notPreview : ms.reg.isPreview = false
  ctrMap : ∀ r n, ms.reg.providers r = some (some (.fresh n)) → n < ms.ctr
  ctrCloses : ∀ n, closeCount (some (.fresh n)) ms.closes ≠ 0 → n < ms.ctr
  onceC : ∀ n, closeCount (some (.fresh n)) ms.closes ≤ 1
  loadedInv : ∀ u, (ms.pst u).nw = .loadedS →
    ∃ h, ms.reg.providers ⟨u, UnknownID⟩ = some (some h) ∧ FreshLive ms.closes h
  createdInv : ∀ u i, (ms.pst u).nw = .createdS i → i ≠ "" ∧ i ≠ UnknownID ∧
    ∃ h, ms.reg.providers ⟨u, i⟩ = some (some h) ∧
      ms.reg.providers ⟨u, UnknownID⟩ = some (some h)
  initInv : ∀ u, (ms.pst u).nw = .initS → ms.reg.providers ⟨u, UnknownID⟩ = none
  closedInv : ∀ u, (ms.pst u).nw = .closedS →
    ∃ h, ms.reg.providers ⟨u, UnknownID⟩ = some (some h)
  oldInv : ∀ u i, (ms.pst u).old = some i → i ≠ "" ∧ i ≠ UnknownID ∧
    ∃ n, ms.reg.providers ⟨u, i⟩ = some (some (.fresh n))
  realLive : ∀ u i h, i ≠ UnknownID → ms.reg.providers ⟨u, i⟩ = some (some h) →
    FreshLive ms.closes h
  urnConf : ∀ r1 r2 n, ms.reg.providers r1 = some (some (.fresh n)) →
    ms.reg.providers r2 = some (some (.fresh n)) → r1.urn = r2.urn
  realDistinct : ∀ u i1 i2 n, i1 ≠ UnknownID → i2 ≠ UnknownID → i1 ≠ i2 →
    ms.reg.providers ⟨u, i1⟩ = some (some (.fresh n)) →
    ms.reg.providers ⟨u, i2⟩ = some (some (.fresh n)) → False
  oldNewDistinct : ∀ u i h h1, (ms.pst u).old = some i →
    ms.reg.providers ⟨u, i⟩ = some (some h) →
    ms.reg.providers ⟨u, UnknownID⟩ = some (some h1) → h ≠ h1
  loadedUnshared : ∀ u n, (ms.pst u).nw = .loadedS →
    ms.reg.providers ⟨u, UnknownID⟩ = some (some (.fresh n)) →
    ∀ u2 i, i ≠ UnknownID → ms.reg.providers ⟨u2, i⟩ ≠ some (some (.fresh n))
  oldNotCreated : ∀ u i, (ms.pst u).old = some i → (ms.pst u).nw ≠ .createdS i

/-- The empty concrete registry over `Nat` handles. -/
def emptyRegN : Registry Nat :=
  { providers := fun _ => none, aliases := fun _ => none, isPreview := false }

/-- A concrete registry with a single entry. -/
def singleReg (ref : Reference) (p : Option Nat) : Registry Nat :=
  { providers := fun r => if r = ref then some p else none,
    aliases := fun _ => none, isPreview := false }

/-- A concrete registry with one alias and no providers. -/
def aliasReg (n o : URN) : Registry Nat :=
  { providers := fun _ => none,
    aliases := fun u => if u = n then some o else none, isPreview := false }

/-- Projection to the reported `Changes` of a Diff outcome. -/
def diffChangesOf (o : Outcome (DiffOut P)) : Option DiffChanges :=
  match o with
  | .ok out => some out.res.changes
  | .fatal _ => none

/-- The trace environment of the builtin double-close counterexample: every
URN names the builtin package. -/
def cexEnv : TraceEnv :=
  { pkgOf := fun _ => "pulumi", builtinPkg := some "pulumi" }

/-- Two Check / replacing-Diff rounds on the same URN. -/
def cexOps : List TOp :=
  [.checkOk "u", .diffOp "u" "i" true, .checkOk "u", .diffOp "u" "i" true]

/-- A trace environment without a builtin provider. -/
def plainEnv : TraceEnv :=
  { pkgOf := fun _ => "aws", builtinPkg := none }

theorem getProvider_setProvider_self {P : Type} (st : Registry P) (ref : Reference)
    (p : Option P) : (st.setProvider ref p).getProvider ref = some p := by
  unfold Registry.setProvider Registry.getProvider
  cases h : st.aliases ref.urn with
  | none => simp
  | some aliasU =>
    simp only
    split
    · rfl
    · simp

theorem getProvider_setProvider_other {P : Type} (st : Registry P) (ref r : Reference)
    (p : Option P) (h1 : r ≠ ref)
    (h2 : ∀ aliasU, st.aliases ref.urn = some aliasU → r ≠ ⟨aliasU, ref.id⟩) :
    (st.setProvider ref p).getProvider r = st.getProvider r := by
  unfold Registry.setProvider Registry.getProvider
  cases h : st.aliases ref.urn with
  | none => simp [h1]
  | some aliasU => simp [h1, h2 aliasU h]

/-- C2 (confirmed): for every call to `Create(urn, news, timeout, preview)`
that succeeds and returns a non-empty id, afterwards
`GetProvider(urn, UnknownID)` and `GetProvider(urn, id)` both succeed and
return the same provider handle. -/
theorem create_dual_registration {P : Type} (st : Registry P) (urn : URN)
    (news : PropertyMap) (cfgErr : Option GoErr) (uuidRes : Except GoErr ID)
    (preview : Bool) (out : CreateOut P)
    (hok : Registry.create st urn news cfgErr uuidRes preview = .ok out)
    (hid : out.id ≠ "") :
    out.st.getProvider ⟨urn, UnknownID⟩ = out.st.getProvider ⟨urn, out.id⟩ ∧
    (out.st.getProvider ⟨urn, UnknownID⟩).isSome = true := by
  unfold Registry.create at hok
  cases hprov : st.getProvider ⟨urn, UnknownID⟩ with
  | none => rw [hprov] at hok; cases hok
  | some provider =>
    rw [hprov] at hok
    cases cfgErr with
    | some e =>
      simp only [Outcome.ok.injEq] at hok
      rw [← hok] at hid; simp at hid
    | none =>
      cases preview with
      | true =>
        simp only [if_true, Outcome.ok.injEq] at hok
        rw [← hok] at hid; simp at hid
      | false =>
        simp only [Bool.false_eq_true, if_false] at hok
        cases uuidRes with
        | error e =>
          simp only [Outcome.ok.injEq] at hok
          rw [← hok] at hid; simp at hid
        | ok id =>
          dsimp only at hok
          by_cases hunk : id = UnknownID
          · rw [if_pos hunk] at hok; cases hok
          · rw [if_neg hunk] at hok
            simp only [Outcome.ok.injEq] at hok
            rw [← hok]
            simp only
            have hne : (⟨urn, UnknownID⟩ : Reference) ≠ ⟨urn, id⟩ := by
              intro hcon
              exact hunk (by cases hcon; rfl)
            rw [getProvider_setProvider_self,
                getProvider_setProvider_other st ⟨urn, id⟩ ⟨urn, UnknownID⟩ provider hne]
            · exact ⟨hprov ▸ rfl, by rw [hprov]; rfl⟩
            · intro aliasU _ hcon
              apply hunk
              cases hcon
              rfl

/-- C2 witness at a concrete input. -/
theorem create_dual_registration_witness :
    (((singleReg ⟨"u", UnknownID⟩ (some 1)).setProvider ⟨"u", "id1"⟩ (some 1)).getProvider
        ⟨"u", UnknownID⟩ =
      ((singleReg ⟨"u", UnknownID⟩ (some 1)).setProvider ⟨"u", "id1"⟩ (some 1)).getProvider
        ⟨"u", "id1"⟩) ∧
    (((singleReg ⟨"u", UnknownID⟩ (some 1)).setProvider ⟨"u", "id1"⟩ (some 1)).getProvider
        ⟨"u", UnknownID⟩).isSome = true :=
  create_dual_registration (singleReg ⟨"u", UnknownID⟩ (some 1)) "u" [] none (.ok "id1")
    false
    { id := "id1", outs := some [], status := .statusOK, err := none,
      st := (singleReg ⟨"u", UnknownID⟩ (some 1)).setProvider ⟨"u", "id1"⟩ (some 1),
      closes := [] }
    rfl (by decide)

/-- C3 (confirmed): whenever `Check` reaches the delegated `CheckConfig`
(version and URL parse, the loader returns a non-nil handle), then either
`CheckConfig` reports no failures and no error and the handle is published
under `(urn, UnknownID)` with nothing closed, or it reports failures or an
error and the handle is closed while the registry state is left unchanged
and nothing is published. -/
theorem check_publish_xor_close {P : Type} (ipt : URN → Bool)
    (parseT : String → Option SemVer) (builtins : Option (Package × P))
    (pkgOf : URN → Package) (st : Registry P) (urn : URN) (olds news : PropertyMap)
    (loadEnv : LoadEnv P) (cc : CheckConfigRes) (v : Option SemVer) (url : String) (p : P)
    (hipt : ipt urn = true)
    (hv : GetProviderVersion parseT news = .ok v)
    (hu : GetProviderDownloadURL news = .ok url)
    (hl : (loadProvider (pkgOf urn) v url builtins loadEnv).ret = .ok (some p)) :
    (cc.failures = [] ∧ cc.err = none →
      Registry.check ipt parseT builtins pkgOf st urn olds news loadEnv cc =
        .ok { inputs := cc.inputs, failures := [], err := none,
              st := st.setProvider ⟨urn, UnknownID⟩ (some p), closes := [],
              loaderCalled := true }) ∧
    (cc.failures ≠ [] ∨ cc.err ≠ none →
      Registry.check ipt parseT builtins pkgOf st urn olds news loadEnv cc =
        .ok { inputs := none, failures := cc.failures, err := cc.err,
              st := st, closes := [some p], loaderCalled := true }) := by
  unfold Registry.check
  rw [hipt, if_pos rfl, hv]
  dsimp only
  rw [hu]
  dsimp only
  rw [hl]
  dsimp only
  constructor
  · rintro ⟨hf, he⟩
    rw [if_neg]
    simp [hf, he]
  · intro h
    rw [if_pos]
    rcases h with h | h
    · exact Or.inl (by simpa using h)
    · exact Or.inr h

/-- C3 witness at a concrete input. -/
theorem check_publish_xor_close_witness :
    Registry.check (fun _ => true) (fun _ => none) none (fun _ => "aws") emptyRegN "u" [] []
        { provider1 := .ok (some 2), getLatest := .error "", download := .error "",
          install := none, provider2 := .error (.other "") }
        { inputs := some [], failures := [], err := none } =
      .ok { inputs := some [], failures := [], err := none,
            st := emptyRegN.setProvider ⟨"u", UnknownID⟩ (some 2), closes := [],
            loaderCalled := true } :=
  (check_publish_xor_close (fun _ => true) (fun _ => none) none (fun _ => "aws") emptyRegN
      "u" [] []
      { provider1 := .ok (some 2), getLatest := .error "", download := .error "",
        install := none, provider2 := .error (.other "") }
      { inputs := some [], failures := [], err := none }
      none "" 2 rfl rfl rfl rfl).1 ⟨rfl, rfl⟩

/-- C4 counterexample: on the delete-before-replace fallback path (the
`(urn, UnknownID)` lookup misses and the `(urn, id)` handle is used), a
plugin diff of `DiffUnknown` with deeply-equal `olds` and `news` is
returned unchanged as `DiffUnknown` instead of being normalized to
`DiffNone`. -/
theorem diff_dbr_unknown_not_normalized :
    diffChangesOf (Registry.diff (singleReg ⟨"u", "i"⟩ (some 0)) "u" "i" [] []
        { changes := .DiffUnknown, replaceKeys := [], deleteBeforeReplace := false } none) =
      some .DiffUnknown ∧
    deepEquals [] [] = true ∧ DiffChanges.DiffUnknown ≠ DiffChanges.DiffNone := by
  refine ⟨rfl, rfl, by decide⟩

/-- C4 (corrected): the `DiffUnknown` normalization holds on the path where
the `(urn, UnknownID)` lookup hits: if the delegated `DiffConfig` returns
`DiffUnknown` with no error, `Diff` reports `DiffNone` when `olds` deeply
equal `news` and `DiffSome` otherwise.  (On the delete-before-replace
fallback path the plugin's diff is returned unchanged.) -/
theorem diff_unknown_normalization_hit {P : Type} (st : Registry P) (urn : URN) (id : ID)
    (olds news : PropertyMap) (dc : DiffResult) (p : Option P) (out : DiffOut P)
    (hid : id ≠ "")
    (hhit : st.getProvider ⟨urn, UnknownID⟩ = some p)
    (hunk : dc.changes = .DiffUnknown)
    (hok : Registry.diff st urn id olds news dc none = .ok out) :
    out.res.changes = (if deepEquals olds news then DiffChanges.DiffNone else .DiffSome) := by
  unfold Registry.diff at hok
  rw [if_neg hid, hhit] at hok
  dsimp only at hok
  rw [if_pos hunk] at hok
  simp only [Outcome.ok.injEq] at hok
  rw [← hok]

/-- C4 witness for the amended theorem at a concrete input. -/
theorem diff_unknown_normalization_hit_witness :
    ({ changes := if deepEquals [] [] then .DiffNone else .DiffSome, replaceKeys := [],
       deleteBeforeReplace := false : DiffResult }).changes =
      (if deepEquals [] [] then DiffChanges.DiffNone else .DiffSome) :=
  diff_unknown_normalization_hit (singleReg ⟨"u", UnknownID⟩ (some 0)) "u" "i" [] []
    { changes := .DiffUnknown, replaceKeys := [], deleteBeforeReplace := false } (some 0)
    { res := { changes := if deepEquals [] [] then .DiffNone else .DiffSome,
               replaceKeys := [], deleteBeforeReplace := false },
      err := none, st := singleReg ⟨"u", UnknownID⟩ (some 0), closes := [] }
    (by decide) rfl rfl rfl

/-- C5 counterexample: `Construct` and `GetPluginInfo`, though listed among
the refused meta-provider methods, do not signal a fatal contract
violation; they return ordinary operational error values. -/
theorem refused_methods_not_all_fatal :
    (Registry.constructR emptyRegN "t" "n").isFatal = false ∧
    (Registry.getPluginInfoR emptyRegN).isFatal = false :=
  ⟨rfl, rfl⟩

/-- C5 (corrected): of the nine methods the spec lists as refused on the
registry itself, seven (`GetSchema`, `GetMapping`, `CheckConfig`,
`DiffConfig`, `Configure`, `Invoke`, `Call`) signal a fatal
contract-violation assertion, while `Construct` and `GetPluginInfo` return
ordinary operational error values. -/
theorem refused_methods_behavior {P : Type} (r : Registry P) (version : Int) (key : String)
    (urn : URN) (olds news props args : PropertyMap) (au : Bool) (ic : List String)
    (tok typ name : String) :
    (r.getSchemaR version).isFatal = true ∧
    (r.getMappingR key).isFatal = true ∧
    (r.checkConfigR urn olds news au).isFatal = true ∧
    (r.diffConfigR urn olds news au ic).isFatal = true ∧
    (r.configureR props).isFatal = true ∧
    (r.invokeR tok args).isFatal = true ∧
    (r.callR tok args).isFatal = true ∧
    r.constructR typ name = .ok (some (.msg "provider resources may not be constructed")) ∧
    r.getPluginInfoR = .ok (some (.msg "the provider registry does not report plugin info")) :=
  ⟨rfl, rfl, rfl, rfl, rfl, rfl, rfl, rfl, rfl⟩

/-- C6 (confirmed): after `RegisterAlias(N, O)` with `N ≠ O`, a
`setProvider((N, i), h)` also makes `GetProvider((O, i))` return `h`. -/
theorem alias_shadow {P : Type} (st : Registry P) (n o : URN) (i : ID) (h : Option P)
    (hne : n ≠ o) :
    ((st.registerAlias n o).setProvider ⟨n, i⟩ h).getProvider ⟨o, i⟩ = some h := by
  unfold Registry.registerAlias Registry.setProvider Registry.getProvider
  rw [if_pos hne]
  simp

/-- C6 witness at a concrete input. -/
theorem alias_shadow_witness :
    ((emptyRegN.registerAlias "N" "O").setProvider ⟨"N", "i"⟩ (some 3)).getProvider
        ⟨"O", "i"⟩ = some (some 3) :=
  alias_shadow emptyRegN "N" "O" "i" (some 3) (by decide)

/-- C7 (confirmed): when the "version" entry of `news` is a string that the
tolerant semver parser rejects, or is not a string, `Check` returns nil
inputs, exactly one `CheckFailure` on property "version" and a nil error,
leaves the state unchanged, closes nothing and never reaches the plugin
loader (hence makes no call to the host). -/
theorem check_bad_version {P : Type} (ipt : URN → Bool) (parseT : String → Option SemVer)
    (builtins : Option (Package × P)) (pkgOf : URN → Package) (st : Registry P)
    (urn : URN) (olds news : PropertyMap) (loadEnv : LoadEnv P) (cc : CheckConfigRes)
    (pv : PropertyValue)
    (hipt : ipt urn = true)
    (hlook : news.lookup "version" = some pv)
    (hbad : ∀ s, pv = .str s → parseT s = none) :
    ∃ reason, Registry.check ipt parseT builtins pkgOf st urn olds news loadEnv cc =
      .ok { inputs := none, failures := [⟨"version", reason⟩], err := none,
            st := st, closes := [], loaderCalled := false } := by
  have hver : ∃ r, GetProviderVersion parseT news = .error r := by
    unfold GetProviderVersion
    rw [hlook]
    dsimp only
    cases pv with
    | str s => dsimp only; rw [hbad s rfl]; exact ⟨_, rfl⟩
    | boolV b => exact ⟨_, rfl⟩
    | numV m => exact ⟨_, rfl⟩
  obtain ⟨r, hr⟩ := hver
  refine ⟨r, ?_⟩
  unfold Registry.check
  rw [hipt, if_pos rfl, hr]

/-- C7 witness at a concrete input. -/
theorem check_bad_version_witness :
    ∃ reason,
      Registry.check (fun _ => true) (fun _ => none) none (fun _ => "aws") emptyRegN "u" []
          [("version", .str "not-a-semver")]
          { provider1 := .ok (some 2), getLatest := .error "", download := .error "",
            install := none, provider2 := .error (.other "") }
          { inputs := some [], failures := [], err := none } =
        .ok { inputs := none, failures := [⟨"version", reason⟩], err := none,
              st := emptyRegN, closes := [], loaderCalled := false } :=
  check_bad_version (fun _ => true) (fun _ => none) none (fun _ => "aws") emptyRegN "u" []
    [("version", .str "not-a-semver")]
    { provider1 := .ok (some 2), getLatest := .error "", download := .error "",
      install := none, provider2 := .error (.other "") }
    { inputs := some [], failures := [], err := none }
    (.str "not-a-semver") rfl rfl (fun _ _ => rfl)

/-- C8 (confirmed): a `Configure` failure during `Create` returns that
error with an empty id, leaves the registry state (and hence every map
entry, including the `(urn, UnknownID)` publication) unchanged, and closes
nothing. -/
theorem create_configure_failure_frame {P : Type} (st : Registry P) (urn : URN)
    (news : PropertyMap) (e : GoErr) (uuidRes : Except GoErr ID) (preview : Bool)
    (p : Option P)
    (hpub : st.getProvider ⟨urn, UnknownID⟩ = some p) :
    Registry.create st urn news (some e) uuidRes preview =
      .ok { id := "", outs := none, status := .statusOK, err := some e,
            st := st, closes := [] } ∧
    st.getProvider ⟨urn, UnknownID⟩ = some p := by
  constructor
  · unfold Registry.create
    rw [hpub]
  · exact hpub

/-- C8 witness at a concrete input. -/
theorem create_configure_failure_frame_witness :
    Registry.create (singleReg ⟨"u", UnknownID⟩ (some 1)) "u" [] (some (.msg "boom"))
        (.ok "x") false =
      .ok { id := "", outs := none, status := .statusOK, err := some (.msg "boom"),
            st := singleReg ⟨"u", UnknownID⟩ (some 1), closes := [] } ∧
    (singleReg ⟨"u", UnknownID⟩ (some 1)).getProvider ⟨"u", UnknownID⟩ = some (some 1) :=
  create_configure_failure_frame (singleReg ⟨"u", UnknownID⟩ (some 1)) "u" []
    (.msg "boom") (.ok "x") false (some 1) rfl

/-- C9 (confirmed): when the package is not the builtin package and
`host.Provider` fails with an error that is not a `workspace.MissingError`,
`loadProvider` returns that exact error after the single host call,
performing no version resolution, no download and no install. -/
theorem loadProvider_other_error {P : Type} (pkg : Package) (version : Option SemVer)
    (url : String) (builtins : Option (Package × P)) (env : LoadEnv P) (e : String)
    (hb : ∀ bpkg bp, builtins = some (bpkg, bp) → pkg ≠ bpkg)
    (h1 : env.provider1 = .error (.other e)) :
    loadProvider pkg version url builtins env =
      { ret := .error (.hostErr (.other e)), calls := [.hostProviderCall] } := by
  unfold loadProvider
  cases builtins with
  | none =>
    unfold loadProvider.loadProviderFromHost
    rw [h1]
  | some bp =>
    obtain ⟨bpkg, b⟩ := bp
    dsimp only
    rw [if_neg (hb bpkg b rfl)]
    unfold loadProvider.loadProviderFromHost
    rw [h1]

/-- C9 witness at a concrete input. -/
theorem loadProvider_other_error_witness :
    loadProvider "aws" none "" (some ("pulumi", (5 : Nat)))
        { provider1 := .error (.other "boom"), getLatest := .error "",
          download := .error "", install := none, provider2 := .error (.other "") } =
      { ret := .error (.hostErr (.other "boom")), calls := [.hostProviderCall] } :=
  loadProvider_other_error "aws" none "" (some ("pulumi", 5))
    { provider1 := .error (.other "boom"), getLatest := .error "",
      download := .error "", install := none, provider2 := .error (.other "") }
    "boom" (by intro bpkg bp hh; cases hh; decide) rfl

/-- C10 (confirmed): `Same(ref)` with a registered alias whose aliased
reference is absent stores the nil handle under `ref` (so `GetProvider`
reports the reference present with a nil handle); without a registered
alias for the URN, `Same` leaves the registry unchanged. -/
theorem same_dangling_alias {P : Type} (st : Registry P) (n o : URN) (i : ID) :
    (st.aliases n = some o → st.providers ⟨o, i⟩ = none →
      (st.same ⟨n, i⟩).getProvider ⟨n, i⟩ = some none) ∧
    (st.aliases n = none → st.same ⟨n, i⟩ = st) := by
  constructor
  · intro ha hnone
    unfold Registry.same Registry.getProvider
    dsimp only
    rw [ha]
    simp [hnone]
  · intro ha
    unfold Registry.same
    dsimp only
    rw [ha]

/-- C10 witness at concrete inputs for both branches. -/
theorem same_dangling_alias_witness :
    ((aliasReg "N" "O").same ⟨"N", "i"⟩).getProvider ⟨"N", "i"⟩ = some none ∧
    emptyRegN.same ⟨"X", "i"⟩ = emptyRegN :=
  ⟨(same_dangling_alias (aliasReg "N" "O") "N" "O" "i").1 rfl rfl,
   (same_dangling_alias emptyRegN "X" "O" "i").2 rfl⟩

theorem closeCount_append (x : Option CHandle) (l1 l2 : List (Option CHandle)) :
    closeCount x (l1 ++ l2) = closeCount x l1 + closeCount x l2 := by
  induction l1 with
  | nil => simp [closeCount]
  | cons y ys ih => simp [closeCount, ih]; omega

theorem closeCount_snoc (x y : Option CHandle) (l : List (Option CHandle)) :
    closeCount x (l ++ [y]) = closeCount x l + (if y = x then 1 else 0) := by
  rw [closeCount_append]
  simp [closeCount]

theorem setProvider_noAliases {P : Type} (st : Registry P) (ref : Reference) (p : Option P)
    (h : st.aliases ref.urn = none) :
    st.setProvider ref p =
      { st with providers := fun r => if r = ref then some p else st.providers r } := by
  unfold Registry.setProvider
  rw [h]

theorem machine_load_eq (env : TraceEnv) (n : Nat) (u : URN) :
    (loadProvider (env.pkgOf u) none "" env.builtins (freshLoadEnv n)).ret =
      .ok (some (loadHandle env n u)) := by
  unfold loadProvider TraceEnv.builtins loadHandle TraceEnv.isBuiltinU freshLoadEnv
  cases hb : env.builtinPkg with
  | none =>
    dsimp only
    unfold loadProvider.loadProviderFromHost
    rfl
  | some bp =>
    dsimp only [Option.map]
    by_cases hp : env.pkgOf u = bp
    · rw [if_pos hp]
      simp [hp]
    · rw [if_neg hp]
      simp only [hp, decide_eq_true_eq, if_neg hp, decide_False]
      unfold loadProvider.loadProviderFromHost
      rfl

theorem check_machine_eq (env : TraceEnv) (st : Registry CHandle) (u : URN) (n : Nat)
    (cc : CheckConfigRes) :
    Registry.check (fun _ => true) (fun _ => none) env.builtins env.pkgOf st u [] []
        (freshLoadEnv n) cc =
      (if cc.failures.length ≠ 0 ∨ cc.err ≠ none then
        .ok { inputs := none, failures := cc.failures, err := cc.err, st := st,
              closes := [some (loadHandle env n u)], loaderCalled := true }
      else
        .ok { inputs := cc.inputs, failures := [], err := none,
              st := st.setProvider ⟨u, UnknownID⟩ (some (loadHandle env n u)),
              closes := [], loaderCalled := true }) := by
  unfold Registry.check
  rw [if_pos rfl]
  rw [show GetProviderVersion (fun _ => none) [] = .ok none from rfl]
  dsimp only
  rw [show GetProviderDownloadURL [] = .ok "" from rfl]
  dsimp only
  rw [machine_load_eq]

theorem diff_machine_hit (st : Registry CHandle) (u : URN) (i : ID) (rep : Bool)
    (p : Option CHandle) (hi : i ≠ "")
    (hp : st.getProvider ⟨u, UnknownID⟩ = some p) :
    Registry.diff st u i [] []
        { changes := .DiffNone, replaceKeys := if rep then ["k"] else [],
          deleteBeforeReplace := false } none =
      .ok { res := { changes := .DiffNone, replaceKeys := if rep then ["k"] else [],
                     deleteBeforeReplace := false },
            err := none, st := st, closes := if rep then [p] else [] } := by
  unfold Registry.diff
  rw [if_neg hi, hp]
  dsimp only
  rw [if_neg (by decide)]
  cases rep <;> rfl

theorem diff_machine_dbr (st : Registry CHandle) (u : URN) (i : ID) (rep : Bool)
    (p : Option CHandle) (hi : i ≠ "")
    (hmiss : st.getProvider ⟨u, UnknownID⟩ = none)
    (hp : st.getProvider ⟨u, i⟩ = some p) :
    Registry.diff st u i [] []
        { changes := .DiffNone, replaceKeys := if rep then ["k"] else [],
          deleteBeforeReplace := false } none =
      .ok { res := { changes := .DiffNone, replaceKeys := if rep then ["k"] else [],
                     deleteBeforeReplace := false },
            err := none, st := st, closes := [] } := by
  unfold Registry.diff
  rw [if_neg hi, hmiss]
  dsimp only
  rw [hp]

theorem create_machine_eq (st : Registry CHandle) (u : URN) (i : ID) (p : Option CHandle)
    (hp : st.getProvider ⟨u, UnknownID⟩ = some p) (hi : i ≠ UnknownID) :
    Registry.create st u [] none (.ok i) false =
      .ok { id := i, outs := some [], status := .statusOK, err := none,
            st := st.setProvider ⟨u, i⟩ p, closes := [] } := by
  unfold Registry.create
  rw [hp]
  dsimp only
  rw [if_neg hi]
  rw [if_neg (show ¬(false = true) by decide)]

theorem delete_machine_eq (st : Registry CHandle) (u : URN) (i : ID) (p : Option CHandle)
    (hprev : st.isPreview = false)
    (hp : st.providers ⟨u, i⟩ = some p) :
    Registry.delete st u i =
      .ok { status := .statusOK,
            st := { st with providers := fun r => if r = ⟨u, i⟩ then none
                                                  else st.providers r },
            closes := [p] } := by
  unfold Registry.delete Registry.deleteProvider
  rw [hprev]
  rw [if_neg (by decide)]
  rw [hp]

theorem stepM_checkOk_eq (env : TraceEnv) (ms : MState) (u : URN)
    (hal : ms.reg.aliases u = none) :
    stepM env ms (.checkOk u) =
      { reg := { ms.reg with providers := fun r =>
            if r = ⟨u, UnknownID⟩ then some (some (loadHandle env ms.ctr u))
            else ms.reg.providers r },
        ctr := nextCtr env ms.ctr u,
        closes := ms.closes,
        pst := fun v => if v = u then { old := (ms.pst v).old, nw := .loadedS }
                        else ms.pst v } := by
  unfold stepM
  dsimp only
  rw [check_machine_eq]
  rw [if_neg (by simp [ccOkRes])]
  dsimp only
  rw [setProvider_noAliases _ _ _ hal]
  simp

theorem stepM_checkFail_eq (env : TraceEnv) (ms : MState) (u : URN) :
    stepM env ms (.checkFail u) =
      { reg := ms.reg, ctr := nextCtr env ms.ctr u,
        closes := ms.closes ++ [some (loadHandle env ms.ctr u)],
        pst := ms.pst } := by
  unfold stepM
  dsimp only
  rw [check_machine_eq]
  rw [if_pos (by simp [ccFailRes])]

theorem stepM_diff_hit_eq (env : TraceEnv) (ms : MState) (u : URN) (i : ID) (rep : Bool)
    (p : Option CHandle) (hi : i ≠ "")
    (hp : ms.reg.providers ⟨u, UnknownID⟩ = some p) :
    stepM env ms (.diffOp u i rep) =
      { reg := ms.reg, ctr := ms.ctr, closes := ms.closes ++ (if rep then [p] else []),
        pst := fun v => if v = u then
            { old := (ms.pst v).old,
              nw := if rep && ((ms.pst v).nw == .loadedS) then .closedS
                    else (ms.pst v).nw }
          else ms.pst v } := by
  unfold stepM
  dsimp only
  rw [diff_machine_hit ms.reg u i rep p hi hp]

theorem stepM_diff_dbr_eq (env : TraceEnv) (ms : MState) (u : URN) (i : ID) (rep : Bool)
    (p : Option CHandle) (hi : i ≠ "")
    (hmiss : ms.reg.providers ⟨u, UnknownID⟩ = none)
    (hp : ms.reg.providers ⟨u, i⟩ = some p) :
    stepM env ms (.diffOp u i rep) =
      { reg := ms.reg, ctr := ms.ctr, closes := ms.closes,
        pst := fun v => if v = u then
            { old := (ms.pst v).old,
              nw := if rep && ((ms.pst v).nw == .loadedS) then .closedS
                    else (ms.pst v).nw }
          else ms.pst v } := by
  unfold stepM
  dsimp only
  rw [diff_machine_dbr ms.reg u i rep p hi hmiss hp]
  simp

theorem stepM_create_eq (env : TraceEnv) (ms : MState) (u : URN) (i : ID)
    (p : Option CHandle) (hp : ms.reg.providers ⟨u, UnknownID⟩ = some p)
    (hi : i ≠ UnknownID) (hal : ms.reg.aliases u = none) :
    stepM env ms (.createOk u i) =
      { reg := { ms.reg with providers := fun r =>
            if r = ⟨u, i⟩ then some p else ms.reg.providers r },
        ctr := ms.ctr, closes := ms.closes,
        pst := fun v => if v = u then { old := (ms.pst v).old, nw := .createdS i }
                        else ms.pst v } := by
  unfold stepM
  dsimp only
  rw [create_machine_eq ms.reg u i p hp hi]
  dsimp only
  rw [setProvider_noAliases _ _ _ hal]
  simp

theorem stepM_delete_eq (env : TraceEnv) (ms : MState) (u : URN) (i : ID)
    (p : Option CHandle) (hprev : ms.reg.isPreview = false)
    (hp : ms.reg.providers ⟨u, i⟩ = some p) :
    stepM env ms (.deleteOp u i) =
      { reg := { ms.reg with providers := fun r =>
            if r = ⟨u, i⟩ then none else ms.reg.providers r },
        ctr := ms.ctr, closes := ms.closes ++ [p],
        pst := fun v => if v = u then
            (if (ms.pst v).old == some i then { old := none, nw := (ms.pst v).nw }
             else { old := (ms.pst v).old, nw := .closedS })
          else ms.pst v } := by
  unfold stepM
  dsimp only
  rw [delete_machine_eq ms.reg u i p hprev hp]

theorem ref_ne_of_urn {u1 u2 : URN} {i1 i2 : ID} (h : u1 ≠ u2) :
    (⟨u1, i1⟩ : Reference) ≠ ⟨u2, i2⟩ :=
  fun hc => h (by cases hc; rfl)

theorem ref_ne_of_id {u1 u2 : URN} {i1 i2 : ID} (h : i1 ≠ i2) :
    (⟨u1, i1⟩ : Reference) ≠ ⟨u2, i2⟩ :=
  fun hc => h (by cases hc; rfl)

theorem freshLive_top (cl : List (Option CHandle)) (c : Nat)
    (hc : ∀ n, closeCount (some (.fresh n)) cl ≠ 0 → n < c) :
    FreshLive cl (CHandle.fresh c) := by
  intro n hn
  injection hn with h
  subst h
  by_contra h
  exact absurd (hc c h) (lt_irrefl c)

theorem freshLive_snoc (cl : List (Option CHandle)) (y : Option CHandle) (h : CHandle)
    (hl : FreshLive cl h) (hne : ∀ n, h = .fresh n → y ≠ some (.fresh n)) :
    FreshLive (cl ++ [y]) h := by
  intro n hn
  rw [closeCount_snoc, hl n hn, if_neg (hne n hn)]

theorem loadHandle_fresh (env : TraceEnv) (n : Nat) (u : URN) (m : Nat)
    (h : loadHandle env n u = .fresh m) : m = n ∧ nextCtr env n u = n + 1 := by
  unfold loadHandle at h
  unfold nextCtr
  by_cases hb : env.isBuiltinU u = true
  · rw [if_pos hb] at h; cases h
  · rw [if_neg hb] at h
    injection h with h1
    exact ⟨h1.symm, by rw [if_neg hb]⟩

theorem le_nextCtr (env : TraceEnv) (n : Nat) (u : URN) : n ≤ nextCtr env n u := by
  unfold nextCtr
  split <;> omega

theorem MInv_checkOk (env : TraceEnv) (ms : MState) (u : URN) (hinv : MInv ms) :
    MInv (stepM env ms (.checkOk u)) := by
  rw [stepM_checkOk_eq env ms u (hinv.noAliases u)]
  have hfr := loadHandle_fresh env ms.ctr u
  have hle := le_nextCtr env ms.ctr u
  refine { noAliases := ?_, notPreview := ?_, ctrMap := ?_, ctrCloses := ?_, onceC := ?_,
           loadedInv := ?_, createdInv := ?_, initInv := ?_, closedInv := ?_, oldInv := ?_,
           realLive := ?_, urnConf := ?_, realDistinct := ?_, oldNewDistinct := ?_,
           loadedUnshared := ?_, oldNotCreated := ?_ }
  · intro v
    dsimp only
    exact hinv.noAliases v
  · dsimp only
    exact hinv.notPreview
  · intro r n hr
    dsimp only at hr ⊢
    by_cases he : r = ⟨u, UnknownID⟩
    · rw [if_pos he] at hr
      have hl : loadHandle env ms.ctr u = .fresh n := by
        injection hr with hx
        injection hx with hy
      obtain ⟨h1, h2⟩ := hfr n hl
      omega
    · rw [if_neg he] at hr
      exact lt_of_lt_of_le (hinv.ctrMap r n hr) hle
  · intro n hn
    dsimp only at hn ⊢
    exact lt_of_lt_of_le (hinv.ctrCloses n hn) hle
  · intro n
    dsimp only
    exact hinv.onceC n
  · intro v hv
    dsimp only at hv ⊢
    by_cases hq : v = u
    · rw [if_pos (show (⟨v, UnknownID⟩ : Reference) = ⟨u, UnknownID⟩ by rw [hq])]
      refine ⟨loadHandle env ms.ctr u, rfl, ?_⟩
      intro n hn
      obtain ⟨h1, _⟩ := hfr n hn
      rw [h1]
      by_cases hc : closeCount (some (.fresh ms.ctr)) ms.closes = 0
      · exact hc
      · exact absurd (hinv.ctrCloses ms.ctr hc) (lt_irrefl _)
    · rw [if_neg hq] at hv
      rw [if_neg (ref_ne_of_urn hq)]
      exact hinv.loadedInv v hv
  · intro v i hv
    dsimp only at hv ⊢
    by_cases hq : v = u
    · rw [if_pos hq] at hv
      dsimp only at hv
      exact NSt.noConfusion hv
    · rw [if_neg hq] at hv
      rw [if_neg (ref_ne_of_urn hq), if_neg (ref_ne_of_urn hq)]
      exact hinv.createdInv v i hv
  · intro v hv
    dsimp only at hv ⊢
    by_cases hq : v = u
    · rw [if_pos hq] at hv
      dsimp only at hv
      exact NSt.noConfusion hv
    · rw [if_neg hq] at hv
      rw [if_neg (ref_ne_of_urn hq)]
      exact hinv.initInv v hv
  · intro v hv
    dsimp only at hv ⊢
    by_cases hq : v = u
    · rw [if_pos hq] at hv
      dsimp only at hv
      exact NSt.noConfusion hv
    · rw [if_neg hq] at hv
      rw [if_neg (ref_ne_of_urn hq)]
      exact hinv.closedInv v hv
  · intro v i hv
    dsimp only at hv ⊢
    have hold : (ms.pst v).old = some i := by
      by_cases hq : v = u
      · rw [if_pos hq] at hv
        dsimp only at hv
        exact hv
      · rw [if_neg hq] at hv
        exact hv
    obtain ⟨h1, h2, n, hn⟩ := hinv.oldInv v i hold
    refine ⟨h1, h2, n, ?_⟩
    rw [if_neg (ref_ne_of_id h2)]
    exact hn
  · intro v i h hi hr
    dsimp only at hr ⊢
    rw [if_neg (ref_ne_of_id hi)] at hr
    exact hinv.realLive v i h hi hr
  · intro r1 r2 n h1 h2
    dsimp only at h1 h2
    by_cases he1 : r1 = ⟨u, UnknownID⟩
    · by_cases he2 : r2 = ⟨u, UnknownID⟩
      · rw [he1, he2]
      · rw [if_pos he1] at h1
        rw [if_neg he2] at h2
        have hl : loadHandle env ms.ctr u = .fresh n := by
          injection h1 with hx
          injection hx with hy
        obtain ⟨hn, _⟩ := hfr n hl
        rw [hn] at h2
        exact absurd (hinv.ctrMap r2 ms.ctr h2) (lt_irrefl _)
    · by_cases he2 : r2 = ⟨u, UnknownID⟩
      · rw [if_neg he1] at h1
        rw [if_pos he2] at h2
        have hl : loadHandle env ms.ctr u = .fresh n := by
          injection h2 with hx
          injection hx with hy
        obtain ⟨hn, _⟩ := hfr n hl
        rw [hn] at h1
        exact absurd (hinv.ctrMap r1 ms.ctr h1) (lt_irrefl _)
      · rw [if_neg he1] at h1
        rw [if_neg he2] at h2
        exact hinv.urnConf r1 r2 n h1 h2
  · intro v i1 i2 n hi1 hi2 hne h1 h2
    dsimp only at h1 h2
    rw [if_neg (ref_ne_of_id hi1)] at h1
    rw [if_neg (ref_ne_of_id hi2)] at h2
    exact hinv.realDistinct v i1 i2 n hi1 hi2 hne h1 h2
  · intro v i h h1 hold hvi hvu
    dsimp only at hold hvi hvu
    have holdv : (ms.pst v).old = some i := by
      by_cases hq : v = u
      · rw [if_pos hq] at hold
        dsimp only at hold
        exact hold
      · rw [if_neg hq] at hold
        exact hold
    obtain ⟨hi1, hi2, m, hm⟩ := hinv.oldInv v i holdv
    rw [if_neg (ref_ne_of_id hi2)] at hvi
    by_cases hq : v = u
    · rw [if_pos (show (⟨v, UnknownID⟩ : Reference) = ⟨u, UnknownID⟩ by rw [hq])] at hvu
      have hh : h = .fresh m := by
        rw [hvi] at hm
        injection hm with hx
        injection hx with hy
      have hml : m < ms.ctr := hinv.ctrMap ⟨v, i⟩ m hm
      have hh1 : h1 = loadHandle env ms.ctr u := by
        injection hvu with hx
        injection hx with hy
        exact hy.symm
      rw [hh, hh1]
      intro hcon
      obtain ⟨he, _⟩ := hfr m hcon.symm
      omega
    · rw [if_neg (ref_ne_of_urn hq)] at hvu
      exact hinv.oldNewDistinct v i h h1 holdv hvi hvu
  · intro v n hv hvu u2 i hi hcon
    dsimp only at hv hvu hcon
    rw [if_neg (ref_ne_of_id hi)] at hcon
    by_cases hq : v = u
    · rw [if_pos (show (⟨v, UnknownID⟩ : Reference) = ⟨u, UnknownID⟩ by rw [hq])] at hvu
      have hl : loadHandle env ms.ctr u = .fresh n := by
        injection hvu with hx
        injection hx with hy
      obtain ⟨hn, _⟩ := hfr n hl
      rw [hn] at hcon
      exact absurd (hinv.ctrMap ⟨u2, i⟩ ms.ctr hcon) (lt_irrefl _)
    · rw [if_neg hq] at hv
      rw [if_neg (ref_ne_of_urn hq)] at hvu
      exact hinv.loadedUnshared v n hv hvu u2 i hi hcon
  · intro v i hold
    dsimp only at hold ⊢
    by_cases hq : v = u
    · rw [if_pos hq]
      dsimp only
      intro hcon
      exact NSt.noConfusion hcon
    · rw [if_neg hq] at hold ⊢
      exact hinv.oldNotCreated v i hold

theorem MInv_checkFail (env : TraceEnv) (ms : MState) (u : URN) (hinv : MInv ms) :
    MInv (stepM env ms (.checkFail u)) := by
  rw [stepM_checkFail_eq env ms u]
  have hfr := loadHandle_fresh env ms.ctr u
  have hle := le_nextCtr env ms.ctr u
  have hkey : ∀ n, some (loadHandle env ms.ctr u) = some (CHandle.fresh n) →
      n = ms.ctr ∧ nextCtr env ms.ctr u = ms.ctr + 1 := by
    intro n hn
    injection hn with hx
    exact hfr n hx
  refine { noAliases := ?_, notPreview := ?_, ctrMap := ?_, ctrCloses := ?_, onceC := ?_,
           loadedInv := ?_, createdInv := ?_, initInv := ?_, closedInv := ?_, oldInv := ?_,
           realLive := ?_, urnConf := ?_, realDistinct := ?_, oldNewDistinct := ?_,
           loadedUnshared := ?_, oldNotCreated := ?_ }
  · intro v
    dsimp only
    exact hinv.noAliases v
  · dsimp only
    exact hinv.notPreview
  · intro r n hr
    dsimp only at hr ⊢
    exact lt_of_lt_of_le (hinv.ctrMap r n hr) hle
  · intro n hn
    dsimp only at hn ⊢
    rw [closeCount_snoc] at hn
    by_cases heq : some (loadHandle env ms.ctr u) = some (CHandle.fresh n)
    · obtain ⟨he, hc⟩ := hkey n heq
      omega
    · rw [if_neg heq] at hn
      have : closeCount (some (.fresh n)) ms.closes ≠ 0 := by omega
      exact lt_of_lt_of_le (hinv.ctrCloses n this) hle
  · intro n
    dsimp only
    rw [closeCount_snoc]
    by_cases heq : some (loadHandle env ms.ctr u) = some (CHandle.fresh n)
    · obtain ⟨he, _⟩ := hkey n heq
      have h0 : closeCount (some (.fresh n)) ms.closes = 0 := by
        by_contra hc
        have := hinv.ctrCloses n hc
        omega
      rw [h0, if_pos heq]
    · rw [if_neg heq]
      have := hinv.onceC n
      omega
  · intro v hv
    dsimp only at hv ⊢
    obtain ⟨h, hh, hl⟩ := hinv.loadedInv v hv
    refine ⟨h, hh, ?_⟩
    refine freshLive_snoc _ _ _ hl ?_
    intro n hn heq
    obtain ⟨he, _⟩ := hkey n heq
    rw [hn] at hh
    have := hinv.ctrMap ⟨v, UnknownID⟩ n hh
    omega
  · intro v i hv
    dsimp only at hv ⊢
    exact hinv.createdInv v i hv
  · intro v hv
    dsimp only at hv ⊢
    exact hinv.initInv v hv
  · intro v hv
    dsimp only at hv ⊢
    exact hinv.closedInv v hv
  · intro v i hv
    dsimp only at hv ⊢
    exact hinv.oldInv v i hv
  · intro v i h hi hr
    dsimp only at hr ⊢
    refine freshLive_snoc _ _ _ (hinv.realLive v i h hi hr) ?_
    intro n hn heq
    obtain ⟨he, _⟩ := hkey n heq
    rw [hn] at hr
    have := hinv.ctrMap ⟨v, i⟩ n hr
    omega
  · intro r1 r2 n h1 h2
    dsimp only at h1 h2
    exact hinv.urnConf r1 r2 n h1 h2
  · intro v i1 i2 n hi1 hi2 hne h1 h2
    dsimp only at h1 h2
    exact hinv.realDistinct v i1 i2 n hi1 hi2 hne h1 h2
  · intro v i h h1 hold hvi hvu
    dsimp only at hold hvi hvu
    exact hinv.oldNewDistinct v i h h1 hold hvi hvu
  · intro v n hv hvu u2 i hi hcon
    dsimp only at hv hvu hcon
    exact hinv.loadedUnshared v n hv hvu u2 i hi hcon
  · intro v i hold
    dsimp only at hold ⊢
    exact hinv.oldNotCreated v i hold

theorem stepM_diff_noop_hit (env : TraceEnv) (ms : MState) (u : URN) (i : ID)
    (p : Option CHandle) (hi : i ≠ "")
    (hh : ms.reg.providers ⟨u, UnknownID⟩ = some p) :
    stepM env ms (.diffOp u i false) = ms := by
  rw [stepM_diff_hit_eq env ms u i false p hi hh]
  obtain ⟨reg, ctr, closes, pst⟩ := ms
  simp only [MState.mk.injEq]
  refine ⟨by simp, by simp, by simp, ?_⟩
  funext v
  by_cases hq : v = u
  · rw [if_pos hq]
    simp
  · rw [if_neg hq]

theorem stepM_diff_noop_dbr (env : TraceEnv) (ms : MState) (u : URN) (i : ID) (rep : Bool)
    (p : Option CHandle) (hi : i ≠ "")
    (hmiss : ms.reg.providers ⟨u, UnknownID⟩ = none)
    (hp : ms.reg.providers ⟨u, i⟩ = some p)
    (hinit : (ms.pst u).nw = .initS) :
    stepM env ms (.diffOp u i rep) = ms := by
  rw [stepM_diff_dbr_eq env ms u i rep p hi hmiss hp]
  obtain ⟨reg, ctr, closes, pst⟩ := ms
  dsimp only at hinit
  simp only [MState.mk.injEq]
  refine ⟨by simp, by simp, by simp, ?_⟩
  funext v
  by_cases hq : v = u
  · rw [if_pos hq, hq]
    rw [show (rep && ((pst u).nw == NSt.loadedS)) = false by rw [hinit]; simp]
    rfl
  · rw [if_neg hq]

theorem MInv_diff (env : TraceEnv) (ms : MState) (u : URN) (i : ID) (rep : Bool)
    (hinv : MInv ms) (hi : i ≠ "")
    (hleg : (ms.pst u).nw = .loadedS ∨
      ((ms.pst u).nw = .initS ∧ (ms.pst u).old = some i)) :
    MInv (stepM env ms (.diffOp u i rep)) := by
  rcases hleg with hl | ⟨hn0, ho⟩
  · obtain ⟨h, hh, hlive⟩ := hinv.loadedInv u hl
    cases rep with
    | false =>
      rw [stepM_diff_noop_hit env ms u i (some h) hi hh]
      exact hinv
    | true =>
      have hstep : stepM env ms (.diffOp u i true) =
          { reg := ms.reg, ctr := ms.ctr, closes := ms.closes ++ [some h],
            pst := fun v => if v = u then { old := (ms.pst v).old, nw := NSt.closedS }
                            else ms.pst v } := by
        rw [stepM_diff_hit_eq env ms u i true (some h) hi hh]
        simp only [MState.mk.injEq]
        refine ⟨by simp, by simp, by simp, ?_⟩
        funext v
        by_cases hq : v = u
        · rw [if_pos hq, if_pos hq, hq, hl]
          rfl
        · rw [if_neg hq, if_neg hq]
      rw [hstep]
      have hfreshh : ∀ n, h = .fresh n → n < ms.ctr := by
        intro n hn
        rw [hn] at hh
        exact hinv.ctrMap ⟨u, UnknownID⟩ n hh
      refine { noAliases := ?_, notPreview := ?_, ctrMap := ?_, ctrCloses := ?_, onceC := ?_,
               loadedInv := ?_, createdInv := ?_, initInv := ?_, closedInv := ?_,
               oldInv := ?_, realLive := ?_, urnConf := ?_, realDistinct := ?_,
               oldNewDistinct := ?_, loadedUnshared := ?_, oldNotCreated := ?_ }
      · intro v
        exact hinv.noAliases v
      · exact hinv.notPreview
      · intro r n hr
        dsimp only at hr ⊢
        exact hinv.ctrMap r n hr
      · intro n hn
        dsimp only at hn ⊢
        rw [closeCount_snoc] at hn
        by_cases heq : (some h : Option CHandle) = some (CHandle.fresh n)
        · injection heq with hx
          exact hfreshh n hx
        · rw [if_neg heq] at hn
          exact hinv.ctrCloses n (by omega)
      · intro n
        dsimp only
        rw [closeCount_snoc]
        by_cases heq : (some h : Option CHandle) = some (CHandle.fresh n)
        · injection heq with hx
          rw [hlive n hx, if_pos (by rw [hx])]
        · rw [if_neg heq]
          have := hinv.onceC n
          omega
      · intro v hv
        dsimp only at hv ⊢
        by_cases hq : v = u
        · rw [if_pos hq] at hv
          dsimp only at hv
          exact NSt.noConfusion hv
        · rw [if_neg hq] at hv
          obtain ⟨h2, hh2, hl2⟩ := hinv.loadedInv v hv
          refine ⟨h2, hh2, ?_⟩
          refine freshLive_snoc _ _ _ hl2 ?_
          intro n hn heq
          injection heq with hx
          rw [hn] at hh2
          rw [hx] at hh
          exact hq (hinv.urnConf ⟨v, UnknownID⟩ ⟨u, UnknownID⟩ n hh2 hh)
      · intro v i2 hv
        dsimp only at hv ⊢
        by_cases hq : v = u
        · rw [if_pos hq] at hv
          dsimp only at hv
          exact NSt.noConfusion hv
        · rw [if_neg hq] at hv
          exact hinv.createdInv v i2 hv
      · intro v hv
        dsimp only at hv ⊢
        by_cases hq : v = u
        · rw [if_pos hq] at hv
          dsimp only at hv
          exact NSt.noConfusion hv
        · rw [if_neg hq] at hv
          exact hinv.initInv v hv
      · intro v hv
        dsimp only at hv ⊢
        by_cases hq : v = u
        · rw [hq]
          exact ⟨h, hh⟩
        · rw [if_neg hq] at hv
          exact hinv.closedInv v hv
      · intro v i2 hv
        dsimp only at hv ⊢
        have hold : (ms.pst v).old = some i2 := by
          by_cases hq : v = u
          · rw [if_pos hq] at hv
            dsimp only at hv
            exact hv
          · rw [if_neg hq] at hv
            exact hv
        exact hinv.oldInv v i2 hold
      · intro v i2 h2 hi2 hr
        dsimp only at hr ⊢
        refine freshLive_snoc _ _ _ (hinv.realLive v i2 h2 hi2 hr) ?_
        intro n hn heq
        injection heq with hx
        rw [hn] at hr
        rw [hx] at hh
        exact hinv.loadedUnshared u n hl hh v i2 hi2 hr
      · intro r1 r2 n h1 h2
        dsimp only at h1 h2
        exact hinv.urnConf r1 r2 n h1 h2
      · intro v i1 i2 n hi1 hi2 hne h1 h2
        dsimp only at h1 h2
        exact hinv.realDistinct v i1 i2 n hi1 hi2 hne h1 h2
      · intro v i2 h2 h3 hold hvi hvu
        dsimp only at hold hvi hvu
        have holdv : (ms.pst v).old = some i2 := by
          by_cases hq : v = u
          · rw [if_pos hq] at hold
            dsimp only at hold
            exact hold
          · rw [if_neg hq] at hold
            exact hold
        exact hinv.oldNewDistinct v i2 h2 h3 holdv hvi hvu
      · intro v n hv hvu u2 i2 hi2 hcon
        dsimp only at hv hvu hcon
        by_cases hq : v = u
        · rw [if_pos hq] at hv
          dsimp only at hv
          exact absurd hv (by intro hcon2; exact NSt.noConfusion hcon2)
        · rw [if_neg hq] at hv
          exact hinv.loadedUnshared v n hv hvu u2 i2 hi2 hcon
      · intro v i2 hold
        dsimp only at hold ⊢
        by_cases hq : v = u
        · rw [if_pos hq]
          dsimp only
          intro hcon
          exact NSt.noConfusion hcon
        · rw [if_neg hq] at hold ⊢
          exact hinv.oldNotCreated v i2 hold
  · obtain ⟨hi1, hi2, m, hm⟩ := hinv.oldInv u i ho
    rw [stepM_diff_noop_dbr env ms u i rep (some (.fresh m)) hi (hinv.initInv u hn0) hm hn0]
    exact hinv

theorem MInv_create (env : TraceEnv) (ms : MState) (u : URN) (i : ID) (hinv : MInv ms)
    (hl : (ms.pst u).nw = .loadedS) (hi1 : i ≠ "") (hi2 : i ≠ UnknownID)
    (hnone : ms.reg.providers ⟨u, i⟩ = none) :
    MInv (stepM env ms (.createOk u i)) := by
  obtain ⟨h, hh, hlive⟩ := hinv.loadedInv u hl
  rw [stepM_create_eq env ms u i (some h) hh hi2 (hinv.noAliases u)]
  have holdne : ∀ i2, (ms.pst u).old = some i2 → i2 ≠ i := by
    intro i2 ho2 hcon
    obtain ⟨_, _, m, hm⟩ := hinv.oldInv u i2 ho2
    rw [hcon, hnone] at hm
    cases hm
  refine { noAliases := ?_, notPreview := ?_, ctrMap := ?_, ctrCloses := ?_, onceC := ?_,
           loadedInv := ?_, createdInv := ?_, initInv := ?_, closedInv := ?_, oldInv := ?_,
           realLive := ?_, urnConf := ?_, realDistinct := ?_, oldNewDistinct := ?_,
           loadedUnshared := ?_, oldNotCreated := ?_ }
  · intro v
    dsimp only
    exact hinv.noAliases v
  · dsimp only
    exact hinv.notPreview
  · intro r n hr
    dsimp only at hr ⊢
    by_cases he : r = ⟨u, i⟩
    · rw [if_pos he] at hr
      injection hr with hx
      rw [hx] at hh
      exact hinv.ctrMap ⟨u, UnknownID⟩ n hh
    · rw [if_neg he] at hr
      exact hinv.ctrMap r n hr
  · intro n hn
    dsimp only at hn ⊢
    exact hinv.ctrCloses n hn
  · intro n
    dsimp only
    exact hinv.onceC n
  · intro v hv
    dsimp only at hv ⊢
    by_cases hq : v = u
    · rw [if_pos hq] at hv
      dsimp only at hv
      exact NSt.noConfusion hv
    · rw [if_neg hq] at hv
      rw [if_neg (ref_ne_of_urn hq)]
      exact hinv.loadedInv v hv
  · intro v i2 hv
    dsimp only at hv ⊢
    by_cases hq : v = u
    · rw [if_pos hq] at hv
      dsimp only at hv
      have hii : i2 = i := by
        injection hv with hx
        exact hx.symm
      rw [hq, hii]
      refine ⟨hi1, hi2, h, by rw [if_pos rfl], ?_⟩
      rw [if_neg (ref_ne_of_id (Ne.symm hi2))]
      exact hh
    · rw [if_neg hq] at hv
      obtain ⟨ha, hb, h2, hc, hd⟩ := hinv.createdInv v i2 hv
      refine ⟨ha, hb, h2, ?_, ?_⟩
      · rw [if_neg (ref_ne_of_urn hq)]
        exact hc
      · rw [if_neg (ref_ne_of_urn hq)]
        exact hd
  · intro v hv
    dsimp only at hv ⊢
    by_cases hq : v = u
    · rw [if_pos hq] at hv
      dsimp only at hv
      exact NSt.noConfusion hv
    · rw [if_neg hq] at hv
      rw [if_neg (ref_ne_of_id (Ne.symm hi2))]
      exact hinv.initInv v hv
  · intro v hv
    dsimp only at hv ⊢
    by_cases hq : v = u
    · rw [if_pos hq] at hv
      dsimp only at hv
      exact NSt.noConfusion hv
    · rw [if_neg hq] at hv
      obtain ⟨h2, hh2⟩ := hinv.closedInv v hv
      refine ⟨h2, ?_⟩
      rw [if_neg (ref_ne_of_id (Ne.symm hi2))]
      exact hh2
  · intro v i2 hv
    dsimp only at hv ⊢
    have hold : (ms.pst v).old = some i2 := by
      by_cases hq : v = u
      · rw [if_pos hq] at hv
        dsimp only at hv
        exact hv
      · rw [if_neg hq] at hv
        exact hv
    obtain ⟨ha, hb, m, hm⟩ := hinv.oldInv v i2 hold
    refine ⟨ha, hb, m, ?_⟩
    rw [if_neg]
    · exact hm
    · intro hcon
      rw [hcon, hnone] at hm
      cases hm
  · intro v i2 h2 hi2b hr
    dsimp only at hr ⊢
    by_cases he : (⟨v, i2⟩ : Reference) = ⟨u, i⟩
    · rw [if_pos he] at hr
      injection hr with hx
      injection hx with hy
      rw [← hy]
      exact hlive
    · rw [if_neg he] at hr
      exact hinv.realLive v i2 h2 hi2b hr
  · intro r1 r2 n h1 h2
    dsimp only at h1 h2
    by_cases he1 : r1 = ⟨u, i⟩
    · by_cases he2 : r2 = ⟨u, i⟩
      · rw [he1, he2]
      · rw [if_pos he1] at h1
        rw [if_neg he2] at h2
        injection h1 with hx
        rw [hx] at hh
        rw [he1]
        exact hinv.urnConf ⟨u, UnknownID⟩ r2 n hh h2
    · by_cases he2 : r2 = ⟨u, i⟩
      · rw [if_neg he1] at h1
        rw [if_pos he2] at h2
        injection h2 with hx
        rw [hx] at hh
        rw [he2]
        exact (hinv.urnConf ⟨u, UnknownID⟩ r1 n hh h1).symm
      · rw [if_neg he1] at h1
        rw [if_neg he2] at h2
        exact hinv.urnConf r1 r2 n h1 h2
  · intro v i1 i2b n hia hib hne h1 h2
    dsimp only at h1 h2
    by_cases he1 : (⟨v, i1⟩ : Reference) = ⟨u, i⟩
    · by_cases he2 : (⟨v, i2b⟩ : Reference) = ⟨u, i⟩
      · exact hne (by rw [show i1 = i by cases he1; rfl, show i2b = i by cases he2; rfl])
      · rw [if_pos he1] at h1
        rw [if_neg he2] at h2
        injection h1 with hx
        rw [hx] at hh
        have hvu : v = u := by cases he1; rfl
        rw [hvu] at h2
        exact hinv.loadedUnshared u n hl hh u i2b hib h2
    · by_cases he2 : (⟨v, i2b⟩ : Reference) = ⟨u, i⟩
      · rw [if_neg he1] at h1
        rw [if_pos he2] at h2
        injection h2 with hx
        rw [hx] at hh
        have hvu : v = u := by cases he2; rfl
        rw [hvu] at h1
        exact hinv.loadedUnshared u n hl hh u i1 hia h1
      · rw [if_neg he1] at h1
        rw [if_neg he2] at h2
        exact hinv.realDistinct v i1 i2b n hia hib hne h1 h2
  · intro v i2 h2 h3 hold hvi hvu
    dsimp only at hold hvi hvu
    have holdv : (ms.pst v).old = some i2 := by
      by_cases hq : v = u
      · rw [if_pos hq] at hold
        dsimp only at hold
        exact hold
      · rw [if_neg hq] at hold
        exact hold
    rw [if_neg (ref_ne_of_id (Ne.symm hi2))] at hvu
    rw [if_neg] at hvi
    · exact hinv.oldNewDistinct v i2 h2 h3 holdv hvi hvu
    · intro hcon
      obtain ⟨_, _, m, hm⟩ := hinv.oldInv v i2 holdv
      rw [hcon, hnone] at hm
      cases hm
  · intro v n hv hvu u2 i2 hi2b hcon
    dsimp only at hv hvu hcon
    by_cases hq : v = u
    · rw [if_pos hq] at hv
      dsimp only at hv
      exact absurd hv (fun hcon2 => NSt.noConfusion hcon2)
    · rw [if_neg hq] at hv
      rw [if_neg (ref_ne_of_id (Ne.symm hi2))] at hvu
      by_cases he : (⟨u2, i2⟩ : Reference) = ⟨u, i⟩
      · rw [if_pos he] at hcon
        injection hcon with hx
        rw [hx] at hh
        exact hq (hinv.urnConf ⟨v, UnknownID⟩ ⟨u, UnknownID⟩ n hvu hh)
      · rw [if_neg he] at hcon
        exact hinv.loadedUnshared v n hv hvu u2 i2 hi2b hcon
  · intro v i2 hold
    dsimp only at hold ⊢
    by_cases hq : v = u
    · rw [if_pos hq] at hold ⊢
      dsimp only at hold
      dsimp only
      intro hcon
      have : i = i2 := by
        injection hcon with hx
      rw [hq] at hold
      exact holdne i2 hold (by rw [this])
    · rw [if_neg hq] at hold ⊢
      exact hinv.oldNotCreated v i2 hold

theorem MInv_delete (env : TraceEnv) (ms : MState) (u : URN) (i : ID) (hinv : MInv ms)
    (hib : i ≠ UnknownID)
    (hleg : (ms.pst u).old = some i ∨ (ms.pst u).nw = .createdS i) :
    MInv (stepM env ms (.deleteOp u i)) := by
  by_cases ho : (ms.pst u).old = some i
  · obtain ⟨hia, _, m, hm⟩ := hinv.oldInv u i ho
    have hstep : stepM env ms (.deleteOp u i) =
        { reg := { ms.reg with providers := fun r => if r = ⟨u, i⟩ then none
                                                     else ms.reg.providers r },
          ctr := ms.ctr, closes := ms.closes ++ [some (.fresh m)],
          pst := fun v => if v = u then { old := none, nw := (ms.pst v).nw }
                          else ms.pst v } := by
      rw [stepM_delete_eq env ms u i (some (.fresh m)) hinv.notPreview hm]
      simp only [MState.mk.injEq]
      refine ⟨by simp, by simp, by simp, ?_⟩
      funext v
      by_cases hq : v = u
      · rw [if_pos hq, if_pos hq, hq]
        rw [if_pos (by simp [ho])]
      · rw [if_neg hq, if_neg hq]
    rw [hstep]
    have hliveM : FreshLive ms.closes (.fresh m) := hinv.realLive u i (.fresh m) hib hm
    refine { noAliases := ?_, notPreview := ?_, ctrMap := ?_, ctrCloses := ?_, onceC := ?_,
             loadedInv := ?_, createdInv := ?_, initInv := ?_, closedInv := ?_, oldInv := ?_,
             realLive := ?_, urnConf := ?_, realDistinct := ?_, oldNewDistinct := ?_,
             loadedUnshared := ?_, oldNotCreated := ?_ }
    · intro v
      dsimp only
      exact hinv.noAliases v
    · dsimp only
      exact hinv.notPreview
    · intro r n hr
      dsimp only at hr ⊢
      by_cases he : r = ⟨u, i⟩
      · rw [if_pos he] at hr
        cases hr
      · rw [if_neg he] at hr
        exact hinv.ctrMap r n hr
    · intro n hn
      dsimp only at hn ⊢
      rw [closeCount_snoc] at hn
      by_cases heq : (some (CHandle.fresh m) : Option CHandle) = some (.fresh n)
      · injection heq with hx
        injection hx with hy
        rw [← hy]
        exact hinv.ctrMap ⟨u, i⟩ m hm
      · rw [if_neg heq] at hn
        exact hinv.ctrCloses n (by omega)
    · intro n
      dsimp only
      rw [closeCount_snoc]
      by_cases heq : (some (CHandle.fresh m) : Option CHandle) = some (.fresh n)
      · injection heq with hx
        injection hx with hy
        rw [← hy, hliveM m rfl, if_pos (by rw [hy])]
      · rw [if_neg heq]
        have := hinv.onceC n
        omega
    · intro v hv
      dsimp only at hv ⊢
      by_cases hq : v = u
      · rw [if_pos hq] at hv
        dsimp only at hv
        rw [hq] at hv ⊢
        obtain ⟨h2, hh2, hl2⟩ := hinv.loadedInv u hv
        refine ⟨h2, ?_, ?_⟩
        · rw [if_neg (ref_ne_of_id (Ne.symm hib))]
          exact hh2
        · refine freshLive_snoc _ _ _ hl2 ?_
          intro n hn heq
          injection heq with hx
          rw [hn] at hh2
          exact hinv.oldNewDistinct u i (.fresh m) (.fresh n) ho hm hh2 hx
      · rw [if_neg hq] at hv
        obtain ⟨h2, hh2, hl2⟩ := hinv.loadedInv v hv
        refine ⟨h2, ?_, ?_⟩
        · rw [if_neg (ref_ne_of_urn hq)]
          exact hh2
        · refine freshLive_snoc _ _ _ hl2 ?_
          intro n hn heq
          injection heq with hx
          injection hx with hy
          rw [hn] at hh2
          rw [hy] at hm
          exact hq (hinv.urnConf ⟨v, UnknownID⟩ ⟨u, i⟩ n hh2 hm)
    · intro v i2 hv
      dsimp only at hv ⊢
      by_cases hq : v = u
      · rw [if_pos hq] at hv
        dsimp only at hv
        rw [hq] at hv ⊢
        obtain ⟨ha, hb, h2, hc, hd⟩ := hinv.createdInv u i2 hv
        have hii : i2 ≠ i := by
          intro hcon
          rw [hcon] at hv
          exact hinv.oldNotCreated u i ho hv
        refine ⟨ha, hb, h2, ?_, ?_⟩
        · rw [if_neg (ref_ne_of_id hii)]
          exact hc
        · rw [if_neg (ref_ne_of_id (Ne.symm hib))]
          exact hd
      · rw [if_neg hq] at hv
        obtain ⟨ha, hb, h2, hc, hd⟩ := hinv.createdInv v i2 hv
        refine ⟨ha, hb, h2, ?_, ?_⟩
        · rw [if_neg (ref_ne_of_urn hq)]
          exact hc
        · rw [if_neg (ref_ne_of_urn hq)]
          exact hd
    · intro v hv
      dsimp only at hv ⊢
      rw [if_neg (ref_ne_of_id (Ne.symm hib))]
      by_cases hq : v = u
      · rw [if_pos hq] at hv
        dsimp only at hv
        rw [hq]
        exact hinv.initInv u (by rw [← hq]; exact hv)
      · rw [if_neg hq] at hv
        exact hinv.initInv v hv
    · intro v hv
      dsimp only at hv ⊢
      rw [if_neg (ref_ne_of_id (Ne.symm hib))]
      by_cases hq : v = u
      · rw [if_pos hq] at hv
        dsimp only at hv
        rw [hq]
        exact hinv.closedInv u (by rw [← hq]; exact hv)
      · rw [if_neg hq] at hv
        exact hinv.closedInv v hv
    · intro v i2 hv
      dsimp only at hv ⊢
      by_cases hq : v = u
      · rw [if_pos hq] at hv
        dsimp only at hv
        cases hv
      · rw [if_neg hq] at hv
        obtain ⟨ha, hb, n, hn⟩ := hinv.oldInv v i2 hv
        refine ⟨ha, hb, n, ?_⟩
        rw [if_neg (ref_ne_of_urn hq)]
        exact hn
    · intro v i2 h2 hi2b hr
      dsimp only at hr ⊢
      by_cases he : (⟨v, i2⟩ : Reference) = ⟨u, i⟩
      · rw [if_pos he] at hr
        cases hr
      · rw [if_neg he] at hr
        refine freshLive_snoc _ _ _ (hinv.realLive v i2 h2 hi2b hr) ?_
        intro n hn heq
        injection heq with hx
        injection hx with hy
        rw [hn] at hr
        rw [hy] at hm
        have hvu : v = u := hinv.urnConf ⟨v, i2⟩ ⟨u, i⟩ n hr hm
        have hii : i2 ≠ i := fun hcon => he (by rw [hvu, hcon])
        rw [hvu] at hr
        exact hinv.realDistinct u i2 i n hi2b hib hii hr hm
    · intro r1 r2 n h1 h2
      dsimp only at h1 h2
      by_cases he1 : r1 = ⟨u, i⟩
      · rw [if_pos he1] at h1
        cases h1
      · by_cases he2 : r2 = ⟨u, i⟩
        · rw [if_pos he2] at h2
          cases h2
        · rw [if_neg he1] at h1
          rw [if_neg he2] at h2
          exact hinv.urnConf r1 r2 n h1 h2
    · intro v i1 i2b n hia2 hib2 hne h1 h2
      dsimp only at h1 h2
      by_cases he1 : (⟨v, i1⟩ : Reference) = ⟨u, i⟩
      · rw [if_pos he1] at h1
        cases h1
      · by_cases he2 : (⟨v, i2b⟩ : Reference) = ⟨u, i⟩
        · rw [if_pos he2] at h2
          cases h2
        · rw [if_neg he1] at h1
          rw [if_neg he2] at h2
          exact hinv.realDistinct v i1 i2b n hia2 hib2 hne h1 h2
    · intro v i2 h2 h3 hold hvi hvu
      dsimp only at hold hvi hvu
      by_cases hq : v = u
      · rw [if_pos hq] at hold
        cases hold
      · rw [if_neg hq] at hold
        rw [if_neg (ref_ne_of_urn hq)] at hvi
        rw [if_neg (ref_ne_of_urn hq)] at hvu
        exact hinv.oldNewDistinct v i2 h2 h3 hold hvi hvu
    · intro v n hv hvu u2 i2 hi2b hcon
      dsimp only at hv hvu hcon
      by_cases he : (⟨u2, i2⟩ : Reference) = ⟨u, i⟩
      · rw [if_pos he] at hcon
        cases hcon
      · rw [if_neg he] at hcon
        rw [if_neg (ref_ne_of_id (Ne.symm hib))] at hvu
        by_cases hq : v = u
        · rw [if_pos hq] at hv
          dsimp only at hv
          rw [hq] at hv hvu
          exact hinv.loadedUnshared u n hv hvu u2 i2 hi2b hcon
        · rw [if_neg hq] at hv
          exact hinv.loadedUnshared v n hv hvu u2 i2 hi2b hcon
    · intro v i2 hold
      dsimp only at hold ⊢
      by_cases hq : v = u
      · rw [if_pos hq] at hold
        cases hold
      · rw [if_neg hq] at hold ⊢
        exact hinv.oldNotCreated v i2 hold
  · have hnc : (ms.pst u).nw = .createdS i := by
      rcases hleg with h | h
      · exact absurd h ho
      · exact h
    obtain ⟨hia, _, h, hci, hcu⟩ := hinv.createdInv u i hnc
    have hstep : stepM env ms (.deleteOp u i) =
        { reg := { ms.reg with providers := fun r => if r = ⟨u, i⟩ then none
                                                     else ms.reg.providers r },
          ctr := ms.ctr, closes := ms.closes ++ [some h],
          pst := fun v => if v = u then { old := (ms.pst v).old, nw := NSt.closedS }
                          else ms.pst v } := by
      rw [stepM_delete_eq env ms u i (some h) hinv.notPreview hci]
      simp only [MState.mk.injEq]
      refine ⟨by simp, by simp, by simp, ?_⟩
      funext v
      by_cases hq : v = u
      · rw [if_pos hq, if_pos hq, hq]
        rw [if_neg (by simp [ho])]
      · rw [if_neg hq, if_neg hq]
    rw [hstep]
    have hliveH : FreshLive ms.closes h := hinv.realLive u i h hib hci
    refine { noAliases := ?_, notPreview := ?_, ctrMap := ?_, ctrCloses := ?_, onceC := ?_,
             loadedInv := ?_, createdInv := ?_, initInv := ?_, closedInv := ?_, oldInv := ?_,
             realLive := ?_, urnConf := ?_, realDistinct := ?_, oldNewDistinct := ?_,
             loadedUnshared := ?_, oldNotCreated := ?_ }
    · intro v
      dsimp only
      exact hinv.noAliases v
    · dsimp only
      exact hinv.notPreview
    · intro r n hr
      dsimp only at hr ⊢
      by_cases he : r = ⟨u, i⟩
      · rw [if_pos he] at hr
        cases hr
      · rw [if_neg he] at hr
        exact hinv.ctrMap r n hr
    · intro n hn
      dsimp only at hn ⊢
      rw [closeCount_snoc] at hn
      by_cases heq : (some h : Option CHandle) = some (.fresh n)
      · injection heq with hx
        rw [hx] at hci
        exact hinv.ctrMap ⟨u, i⟩ n hci
      · rw [if_neg heq] at hn
        exact hinv.ctrCloses n (by omega)
    · intro n
      dsimp only
      rw [closeCount_snoc]
      by_cases heq : (some h : Option CHandle) = some (.fresh n)
      · injection heq with hx
        rw [hliveH n hx, if_pos (by rw [hx])]
      · rw [if_neg heq]
        have := hinv.onceC n
        omega
    · intro v hv
      dsimp only at hv ⊢
      by_cases hq : v = u
      · rw [if_pos hq] at hv
        dsimp only at hv
        exact NSt.noConfusion hv
      · rw [if_neg hq] at hv
        obtain ⟨h2, hh2, hl2⟩ := hinv.loadedInv v hv
        refine ⟨h2, ?_, ?_⟩
        · rw [if_neg (ref_ne_of_urn hq)]
          exact hh2
        · refine freshLive_snoc _ _ _ hl2 ?_
          intro n hn heq
          injection heq with hx
          rw [hn] at hh2
          rw [hx] at hci
          exact hinv.loadedUnshared v n hv hh2 u i hib hci
    · intro v i2 hv
      dsimp only at hv ⊢
      by_cases hq : v = u
      · rw [if_pos hq] at hv
        dsimp only at hv
        exact NSt.noConfusion hv
      · rw [if_neg hq] at hv
        obtain ⟨ha, hb, h2, hc, hd⟩ := hinv.createdInv v i2 hv
        refine ⟨ha, hb, h2, ?_, ?_⟩
        · rw [if_neg (ref_ne_of_urn hq)]
          exact hc
        · rw [if_neg (ref_ne_of_urn hq)]
          exact hd
    · intro v hv
      dsimp only at hv ⊢
      rw [if_neg (ref_ne_of_id (Ne.symm hib))]
      by_cases hq : v = u
      · rw [if_pos hq] at hv
        dsimp only at hv
        exact NSt.noConfusion hv
      · rw [if_neg hq] at hv
        exact hinv.initInv v hv
    · intro v hv
      dsimp only at hv ⊢
      rw [if_neg (ref_ne_of_id (Ne.symm hib))]
      by_cases hq : v = u
      · rw [hq]
        exact ⟨h, hcu⟩
      · rw [if_neg hq] at hv
        exact hinv.closedInv v hv
    · intro v i2 hv
      dsimp only at hv ⊢
      by_cases hq : v = u
      · rw [if_pos hq] at hv
        dsimp only at hv
        rw [hq] at hv ⊢
        obtain ⟨ha, hb, n, hn⟩ := hinv.oldInv u i2 hv
        have hii : i2 ≠ i := by
          intro hcon
          rw [hcon] at hv
          exact ho hv
        refine ⟨ha, hb, n, ?_⟩
        rw [if_neg (ref_ne_of_id hii)]
        exact hn
      · rw [if_neg hq] at hv
        obtain ⟨ha, hb, n, hn⟩ := hinv.oldInv v i2 hv
        refine ⟨ha, hb, n, ?_⟩
        rw [if_neg (ref_ne_of_urn hq)]
        exact hn
    · intro v i2 h2 hi2b hr
      dsimp only at hr ⊢
      by_cases he : (⟨v, i2⟩ : Reference) = ⟨u, i⟩
      · rw [if_pos he] at hr
        cases hr
      · rw [if_neg he] at hr
        refine freshLive_snoc _ _ _ (hinv.realLive v i2 h2 hi2b hr) ?_
        intro n hn heq
        injection heq with hx
        rw [hn] at hr
        rw [hx] at hci
        have hvu : v = u := hinv.urnConf ⟨v, i2⟩ ⟨u, i⟩ n hr hci
        have hii : i2 ≠ i := fun hcon => he (by rw [hvu, hcon])
        rw [hvu] at hr
        exact hinv.realDistinct u i2 i n hi2b hib hii hr hci
    · intro r1 r2 n h1 h2
      dsimp only at h1 h2
      by_cases he1 : r1 = ⟨u, i⟩
      · rw [if_pos he1] at h1
        cases h1
      · by_cases he2 : r2 = ⟨u, i⟩
        · rw [if_pos he2] at h2
          cases h2
        · rw [if_neg he1] at h1
          rw [if_neg he2] at h2
          exact hinv.urnConf r1 r2 n h1 h2
    · intro v i1 i2b n hia2 hib2 hne h1 h2
      dsimp only at h1 h2
      by_cases he1 : (⟨v, i1⟩ : Reference) = ⟨u, i⟩
      · rw [if_pos he1] at h1
        cases h1
      · by_cases he2 : (⟨v, i2b⟩ : Reference) = ⟨u, i⟩
        · rw [if_pos he2] at h2
          cases h2
        · rw [if_neg he1] at h1
          rw [if_neg he2] at h2
          exact hinv.realDistinct v i1 i2b n hia2 hib2 hne h1 h2
    · intro v i2 h2 h3 hold hvi hvu
      dsimp only at hold hvi hvu
      have holdv : (ms.pst v).old = some i2 := by
        by_cases hq : v = u
        · rw [if_pos hq] at hold
          dsimp only at hold
          exact hold
        · rw [if_neg hq] at hold
          exact hold
      rw [if_neg (ref_ne_of_id (Ne.symm hib))] at hvu
      rw [if_neg] at hvi
      · exact hinv.oldNewDistinct v i2 h2 h3 holdv hvi hvu
      · intro hcon
        rw [if_pos hcon] at hvi
        cases hvi
    · intro v n hv hvu u2 i2 hi2b hcon
      dsimp only at hv hvu hcon
      by_cases he : (⟨u2, i2⟩ : Reference) = ⟨u, i⟩
      · rw [if_pos he] at hcon
        cases hcon
      · rw [if_neg he] at hcon
        rw [if_neg (ref_ne_of_id (Ne.symm hib))] at hvu
        by_cases hq : v = u
        · rw [if_pos hq] at hv
          dsimp only at hv
          exact NSt.noConfusion hv
        · rw [if_neg hq] at hv
          exact hinv.loadedUnshared v n hv hvu u2 i2 hi2b hcon
    · intro v i2 hold
      dsimp only at hold ⊢
      by_cases hq : v = u
      · rw [if_pos hq]
        dsimp only
        intro hcon
        exact NSt.noConfusion hcon
      · rw [if_neg hq] at hold ⊢
        exact hinv.oldNotCreated v i2 hold

theorem MInv_step (env : TraceEnv) (ms : MState) (op : TOp) (hinv : MInv ms)
    (hleg : legalStep ms op = true) : MInv (stepM env ms op) := by
  cases op with
  | checkOk u => exact MInv_checkOk env ms u hinv
  | checkFail u => exact MInv_checkFail env ms u hinv
  | diffOp u i rep =>
    unfold legalStep at hleg
    simp only [Bool.and_eq_true, Bool.or_eq_true, beq_iff_eq, bne_iff_ne, ne_eq] at hleg
    exact MInv_diff env ms u i rep hinv hleg.1 hleg.2
  | createOk u i =>
    unfold legalStep at hleg
    simp only [Bool.and_eq_true, beq_iff_eq, bne_iff_ne, ne_eq,
      Option.isNone_iff_eq_none] at hleg
    exact MInv_create env ms u i hinv hleg.1.1.1 hleg.1.1.2 hleg.1.2 hleg.2
  | deleteOp u i =>
    unfold legalStep at hleg
    simp only [Bool.and_eq_true, Bool.or_eq_true, beq_iff_eq, bne_iff_ne, ne_eq] at hleg
    exact MInv_delete env ms u i hinv hleg.1.2 hleg.2

theorem MInv_run (env : TraceEnv) (ops : List TOp) : ∀ (ms : MState), MInv ms →
    legalTraceFrom env ms ops = true → MInv (runM env ms ops) := by
  induction ops with
  | nil => intro ms hinv _; exact hinv
  | cons op ops ih =>
    intro ms hinv hleg
    unfold legalTraceFrom at hleg
    simp only [Bool.and_eq_true] at hleg
    exact ih (stepM env ms op) (MInv_step env ms op hinv hleg.1) hleg.2

theorem seed_mem_bounds : ∀ (l : List (URN × ID)) (k : Nat) (r : Reference)
    (v : Option CHandle), seedProviders l k r = some v →
    ∃ n, v = some (.fresh n) ∧ k ≤ n ∧ n < k + l.length := by
  intro l
  induction l with
  | nil => intro k r v h; cases h
  | cons p rest ih =>
    intro k r v h
    obtain ⟨u0, i0⟩ := p
    unfold seedProviders at h
    by_cases he : r = ⟨u0, i0⟩
    · rw [if_pos he] at h
      injection h with hx
      exact ⟨k, hx.symm, le_refl k, by simp⟩
    · rw [if_neg he] at h
      obtain ⟨n, hv, hlb, hub⟩ := ih (k + 1) r v h
      refine ⟨n, hv, by omega, ?_⟩
      simp only [List.length_cons]
      omega

theorem seed_ref_mem : ∀ (l : List (URN × ID)) (k : Nat) (r : Reference)
    (v : Option CHandle), seedProviders l k r = some v → (r.urn, r.id) ∈ l := by
  intro l
  induction l with
  | nil => intro k r v h; cases h
  | cons p rest ih =>
    intro k r v h
    obtain ⟨u0, i0⟩ := p
    unfold seedProviders at h
    by_cases he : r = ⟨u0, i0⟩
    · rw [he]
      exact List.mem_cons_self _ _
    · rw [if_neg he] at h
      exact List.mem_cons_of_mem _ (ih (k + 1) r v h)

theorem seed_inj : ∀ (l : List (URN × ID)) (k : Nat) (r1 r2 : Reference) (n : Nat),
    seedProviders l k r1 = some (some (.fresh n)) →
    seedProviders l k r2 = some (some (.fresh n)) → r1 = r2 := by
  intro l
  induction l with
  | nil => intro k r1 r2 n h1; cases h1
  | cons p rest ih =>
    intro k r1 r2 n h1 h2
    obtain ⟨u0, i0⟩ := p
    unfold seedProviders at h1 h2
    by_cases he1 : r1 = ⟨u0, i0⟩
    · by_cases he2 : r2 = ⟨u0, i0⟩
      · rw [he1, he2]
      · rw [if_pos he1] at h1
        rw [if_neg he2] at h2
        obtain ⟨m, hv, hlb, _⟩ := seed_mem_bounds rest (k + 1) r2 _ h2
        injection hv with hx
        injection h1 with hy
        injection hy with hz
        injection hz with hw
        injection hx with hx2
        omega
    · by_cases he2 : r2 = ⟨u0, i0⟩
      · rw [if_neg he1] at h1
        rw [if_pos he2] at h2
        obtain ⟨m, hv, hlb, _⟩ := seed_mem_bounds rest (k + 1) r1 _ h1
        injection hv with hx
        injection h2 with hy
        injection hy with hz
        injection hz with hw
        injection hx with hx2
        omega
      · rw [if_neg he1] at h1
        rw [if_neg he2] at h2
        exact ih (k + 1) r1 r2 n h1 h2

theorem seed_lookup : ∀ (l : List (URN × ID)) (k : Nat) (u : URN) (i : ID),
    l.lookup u = some i → ∃ n, seedProviders l k ⟨u, i⟩ = some (some (.fresh n)) := by
  intro l
  induction l with
  | nil => intro k u i h; cases h
  | cons p rest ih =>
    intro k u i h
    obtain ⟨u0, i0⟩ := p
    unfold seedProviders
    rw [List.lookup] at h
    by_cases hbe : u = u0
    · rw [show (u == u0) = true from beq_iff_eq.mpr hbe] at h
      dsimp only at h
      injection h with hx
      rw [if_pos (by rw [hbe, hx])]
      exact ⟨k, rfl⟩
    · rw [show (u == u0) = false by simp [hbe]] at h
      dsimp only at h
      obtain ⟨n, hn⟩ := ih (k + 1) u i h
      refine ⟨n, ?_⟩
      rw [if_neg (ref_ne_of_urn hbe)]
      exact hn

theorem lookup_pair_mem : ∀ (l : List (URN × ID)) (u : URN) (i : ID),
    l.lookup u = some i → (u, i) ∈ l := by
  intro l
  induction l with
  | nil => intro u i h; cases h
  | cons p rest ih =>
    intro u i h
    obtain ⟨u0, i0⟩ := p
    rw [List.lookup] at h
    by_cases hbe : u = u0
    · rw [show (u == u0) = true from beq_iff_eq.mpr hbe] at h
      dsimp only at h
      injection h with hx
      rw [hbe, hx]
      exact List.mem_cons_self _ _
    · rw [show (u == u0) = false by simp [hbe]] at h
      dsimp only at h
      exact List.mem_cons_of_mem _ (ih u i h)

theorem MInv_init (prev : List (URN × ID))
    (hWF : ∀ p ∈ prev, p.2 ≠ "" ∧ p.2 ≠ UnknownID) : MInv (initM prev) := by
  have hunk : ∀ u, seedProviders prev 0 ⟨u, UnknownID⟩ = none := by
    intro u
    cases hseed : seedProviders prev 0 ⟨u, UnknownID⟩ with
    | none => rfl
    | some v =>
      exact absurd rfl (hWF (u, UnknownID) (seed_ref_mem prev 0 ⟨u, UnknownID⟩ v hseed)).2
  refine { noAliases := ?_, notPreview := ?_, ctrMap := ?_, ctrCloses := ?_, onceC := ?_,
           loadedInv := ?_, createdInv := ?_, initInv := ?_, closedInv := ?_, oldInv := ?_,
           realLive := ?_, urnConf := ?_, realDistinct := ?_, oldNewDistinct := ?_,
           loadedUnshared := ?_, oldNotCreated := ?_ }
  · intro v
    rfl
  · rfl
  · intro r n hr
    dsimp only [initM] at hr ⊢
    obtain ⟨m, hv, _, hub⟩ := seed_mem_bounds prev 0 r _ hr
    injection hv with hx
    injection hx with hy
    omega
  · intro n hn
    dsimp only [initM] at hn
    exact absurd rfl hn
  · intro n
    dsimp only [initM]
    exact Nat.zero_le 1
  · intro v hv
    dsimp only [initM] at hv
    exact NSt.noConfusion hv
  · intro v i hv
    dsimp only [initM] at hv
    exact NSt.noConfusion hv
  · intro v _
    dsimp only [initM]
    exact hunk v
  · intro v hv
    dsimp only [initM] at hv
    exact NSt.noConfusion hv
  · intro v i hv
    dsimp only [initM] at hv ⊢
    obtain ⟨ha, hb⟩ := hWF (v, i) (lookup_pair_mem prev v i hv)
    exact ⟨ha, hb, seed_lookup prev 0 v i hv⟩
  · intro v i h _ _
    intro n _
    rfl
  · intro r1 r2 n h1 h2
    dsimp only [initM] at h1 h2
    rw [seed_inj prev 0 r1 r2 n h1 h2]
  · intro v i1 i2 n _ _ hne h1 h2
    dsimp only [initM] at h1 h2
    have := seed_inj prev 0 ⟨v, i1⟩ ⟨v, i2⟩ n h1 h2
    exact hne (by cases this; rfl)
  · intro v i h h1 _ _ hvu
    dsimp only [initM] at hvu
    rw [hunk v] at hvu
    cases hvu
  · intro v n hv
    dsimp only [initM] at hv
    exact NSt.noConfusion hv
  · intro v i hold
    dsimp only [initM] at hold ⊢
    intro hcon
    exact NSt.noConfusion hcon

/-- C1 counterexample: the claim as stated is false.  Two Check /
replacing-Diff rounds on one URN whose package is the builtin package form
a legal trace per the spec's state machine (re-Check after a closing Diff
is explicitly sanctioned), and both rounds close the same builtin handle,
which `loadProvider` returned by short-circuit both times: the handle is
passed to `host.CloseProvider` twice. -/
theorem builtin_double_close :
    legalTraceFrom cexEnv (initM []) cexOps = true ∧
    closeCount (some CHandle.builtin) (runM cexEnv (initM []) cexOps).closes = 2 := by
  exact ⟨by decide, by decide⟩

/-- C1 (corrected): single-close holds for every handle freshly obtained
from `host.Provider`.  Over any trace of registry operations that is legal
per the spec's per-URN state machine (Check, Diff with or without
replacement, Create, Delete, on a registry seeded from a prior state),
every fresh handle is passed to `host.CloseProvider` at most once.  Only
the builtin handle, which the loader returns by short-circuit, can be
closed more than once. -/
theorem single_close_fresh (env : TraceEnv) (prev : List (URN × ID)) (ops : List TOp)
    (hWF : ∀ p ∈ prev, p.2 ≠ "" ∧ p.2 ≠ UnknownID)
    (hleg : legalTraceFrom env (initM prev) ops = true) :
    ∀ n, closeCount (some (.fresh n)) (runM env (initM prev) ops).closes ≤ 1 :=
  fun n => (MInv_run env ops (initM prev) (MInv_init prev hWF) hleg).onceC n

/-- C1 witness: a concrete legal trace with a replacing Diff, a Create and
two Deletes; every fresh handle is closed at most once on it. -/
theorem single_close_fresh_witness :
    closeCount (some (.fresh 1))
      (runM plainEnv (initM [("u", "i0")])
        [.checkOk "u", .diffOp "u" "i0" true, .checkOk "u", .createOk "u" "i1",
         .deleteOp "u" "i1", .deleteOp "u" "i0"]).closes ≤ 1 :=
  single_close_fresh plainEnv [("u", "i0")]
    [.checkOk "u", .diffOp "u" "i0" true, .checkOk "u", .createOk "u" "i1",
     .deleteOp "u" "i1", .deleteOp "u" "i0"]
    (by decide) (by decide) 1
